import Mathlib

/-!
# Threshold-free cluster enhancement (`src/stats/tfce.h`)

A shallow embedding of the permutation source (`QueueLoader`), the two cluster
integrators (`TFCESpatial`, `TFCEConnectivity`) and the permutation worker
(`ThreadKernel`) of `MR::Stats::TFCE`, followed by theorems about them.

Modelling conventions.

* `value_type` (`float` in the source) is modelled by the rationals: arithmetic is
  exact, rounding and the special values of IEEE arithmetic are not modelled.
* `pow` comes from the C library; every definition that calls it takes it as the
  parameter `pow`.
* `std::vector` and `Math::Vector` are lists.  An access outside the bounds of a
  vector (undefined behaviour in the source) is the fault `Fault.out_of_range`.
* A failure of the statistics calculator (a C++ exception) is the fault
  `Fault.stats_failure`.
* The threshold sweep is a `for` loop that need not terminate; it is modelled with
  a fuel counter, and running out of fuel is the fault `Fault.out_of_fuel`.
* `size_t` and `uint32_t` values are natural numbers; the only arithmetic on them
  is `++` below a vector size and `- 1` on a non-zero value, neither of which wraps.
-/

namespace MR.Stats.TFCE

/-- The `typedef float value_type;` of the source, modelled by exact rationals. -/
abbrev value_type := ℚ

/-- The ways in which an execution of the embedded code can fail to return. -/
inductive Fault where
  | out_of_range
  | out_of_fuel
  | stats_failure
  deriving DecidableEq

/-- Read `v[i]`; an index outside the vector is a fault. -/
def read {α : Type} (v : List α) (i : Nat) : Except Fault α :=
  match v[i]? with
  | some x => .ok x
  | none => .error .out_of_range

/-- Assign `v[i] = x`; an index outside the vector is a fault. -/
def write {α : Type} (v : List α) (i : Nat) (x : α) : Except Fault (List α) :=
  if i < v.length then .ok (v.set i x) else .error .out_of_range

/-- The loop `for (size_t i = start; i < start + count; ++i) body`, threading the
state `σ` through the iterations; `for_loop body 0 n` is
`for (size_t i = 0; i < n; ++i)`. -/
def for_loop {σ : Type} (body : Nat → σ → Except Fault σ) : Nat → Nat → σ → Except Fault σ
  | _, 0, s => .ok s
  | i, k + 1, s =>
    match body i s with
    | .ok s1 => for_loop body (i + 1) k s1
    | .error e => .error e

/-- The loop header shared by both integrators,
`for (value_type threshold = dh; threshold < max_stat; threshold += dh) body`,
started at `threshold` and run for at most `fuel` iterations. -/
def threshold_loop (body : value_type → List value_type → Except Fault (List value_type))
    (dh max_stat : value_type) : Nat → value_type → List value_type → Except Fault (List value_type)
  | 0, threshold, tfce_stats =>
    if threshold < max_stat then .error .out_of_fuel else .ok tfce_stats
  | fuel + 1, threshold, tfce_stats =>
    if threshold < max_stat then
      match body threshold tfce_stats with
      | .ok tfce_stats1 => threshold_loop body dh max_stat fuel (threshold + dh) tfce_stats1
      | .error e => .error e
    else .ok tfce_stats

/-- The scan that closes both integrators:
`max_tfce_stat = 0.0; for (i = 0; i < n; i++) if (tfce_stats[i] > max_tfce_stat) max_tfce_stat = tfce_stats[i];`. -/
def max_scan (n : Nat) (tfce_stats : List value_type) : Except Fault value_type :=
  for_loop (fun i max_tfce_stat =>
    match read tfce_stats i with
    | .ok x => .ok (if x > max_tfce_stat then x else max_tfce_stat)
    | .error e => .error e) 0 n 0

/-! ## PermutationItem and QueueLoader -/

/-- The class `PermutationItem`. -/
structure PermutationItem where
  labelling : List Nat
  index : Nat
  deriving DecidableEq

/-- The state of a `QueueLoader`: the stored labellings, the cursor and the
counter of the progress bar. -/
structure QueueLoader where
  permutations : List (List Nat)
  current_perm : Nat
  progress : Nat
  deriving DecidableEq

/-- The constructor `QueueLoader (num_perms, num_subjects)`;
`generate_permutations` (`math/stats/permutation.h`) fills `permutations`. -/
def QueueLoader.new (generate_permutations : Nat → Nat → List (List Nat))
    (num_perms num_subjects : Nat) : QueueLoader :=
  { permutations := generate_permutations num_perms num_subjects
    current_perm := 0
    progress := 0 }

/-- The call `QueueLoader::operator() (PermutationItem& item)`: the returned flag,
the loader afterwards and the item afterwards. -/
def QueueLoader.call (q : QueueLoader) (item : PermutationItem) :
    Bool × QueueLoader × PermutationItem :=
  if h : q.current_perm ≥ q.permutations.length then
    (false, q, item)
  else
    (true,
     { q with current_perm := q.current_perm + 1, progress := q.progress + 1 },
     { index := q.current_perm
       labelling := q.permutations.get ⟨q.current_perm, Nat.lt_of_not_ge h⟩ })

/-- The loader and the item after `k` successive calls of `operator()` on the same
item object. -/
def QueueLoader.calls : Nat → QueueLoader → PermutationItem → QueueLoader × PermutationItem
  | 0, q, item => (q, item)
  | k + 1, q, item => QueueLoader.calls k (q.call item).2.1 (q.call item).2.2

/-! ## TFCESpatial -/

/-- The part of `Image::Filter::cluster` that the integrator reads. -/
structure cluster where
  size : Nat
  deriving DecidableEq

/-- The method `Image::Filter::Connector::run (clusters, labels, stats, threshold)`
(`image/filter/connected_components.h`): from the labels passed in, the statistics
and the threshold to the clusters and the labels afterwards. -/
abbrev Connector := List Nat → List value_type → value_type → List cluster × List Nat

/-- The class `TFCESpatial`. -/
structure TFCESpatial where
  connector : Connector
  dh : value_type
  E : value_type
  H : value_type

/-- The constructor `TFCESpatial (connector, dh, E, H)`: its body is empty, it stores its
arguments and has no failing path. -/
def TFCESpatial.new (connector : Connector) (dh E H : value_type) : Except Fault TFCESpatial :=
  .ok { connector := connector, dh := dh, E := E, H := H }

/-- One iteration of the inner loop of `TFCESpatial::operator()`:
`if (labels[i]) tfce_stats[i] += pow (clusters[labels[i]-1].size, E) * pow (threshold, H);`. -/
def TFCESpatial.accumulate (pow : value_type → value_type → value_type) (T : TFCESpatial)
    (threshold : value_type) (clusters : List cluster) (labels : List Nat)
    (i : Nat) (tfce_stats : List value_type) : Except Fault (List value_type) :=
  match read labels i with
  | .error e => .error e
  | .ok l =>
    if l ≠ 0 then
      match read clusters (l - 1), read tfce_stats i with
      | .ok c, .ok x => write tfce_stats i (x + pow (c.size : value_type) T.E * pow threshold T.H)
      | .error e, _ => .error e
      | _, .error e => .error e
    else .ok tfce_stats

/-- The body of the threshold loop of `TFCESpatial::operator()`. -/
def TFCESpatial.body (pow : value_type → value_type → value_type) (T : TFCESpatial)
    (stats : List value_type) (threshold : value_type) (tfce_stats : List value_type) :
    Except Fault (List value_type) :=
  let r := T.connector (List.replicate tfce_stats.length 0) stats threshold
  for_loop (T.accumulate pow threshold r.1 r.2) 0 tfce_stats.length tfce_stats

/-- The call `TFCESpatial::operator() (max_stat, stats, tfce_stats)`: the accumulator
afterwards and the returned maximum. -/
def TFCESpatial.call (pow : value_type → value_type → value_type) (T : TFCESpatial) (fuel : Nat)
    (max_stat : value_type) (stats tfce_stats : List value_type) :
    Except Fault (List value_type × value_type) :=
  match threshold_loop (T.body pow stats) T.dh max_stat fuel T.dh tfce_stats with
  | .error e => .error e
  | .ok tfce_stats1 =>
    match max_scan tfce_stats1.length tfce_stats1 with
    | .error e => .error e
    | .ok max_tfce_stat => .ok (tfce_stats1, max_tfce_stat)

/-! ## TFCEConnectivity -/

/-- The struct `connectivity`. -/
structure connectivity where
  value : value_type := 0
  deriving DecidableEq

/-- The class `TFCEConnectivity`; a `std::map<int32_t, connectivity>` is the list of
its entries in iteration order. -/
structure TFCEConnectivity where
  connectivity_map : List (List (Int × connectivity))
  dh : value_type
  E : value_type
  H : value_type

/-- The constructor `TFCEConnectivity (connectivity_map, dh, E, H)`: its body is empty,
it stores its arguments and has no failing path. -/
def TFCEConnectivity.new (connectivity_map : List (List (Int × connectivity)))
    (dh E H : value_type) : Except Fault TFCEConnectivity :=
  .ok { connectivity_map := connectivity_map, dh := dh, E := E, H := H }

/-- The loop over `connected_lobe` of `TFCEConnectivity::operator()`:
`if (stats[connected_lobe->first] > threshold) extent += connected_lobe->second.value;`.
The key is converted to `size_t` by the subscript, so a negative key is out of range. -/
def TFCEConnectivity.extent (stats : List value_type) (threshold : value_type) :
    List (Int × connectivity) → value_type → Except Fault value_type
  | [], extent => .ok extent
  | connected_lobe :: rest, extent =>
    if connected_lobe.1 < 0 then .error .out_of_range
    else
      match read stats connected_lobe.1.toNat with
      | .error e => .error e
      | .ok s =>
        TFCEConnectivity.extent stats threshold rest
          (if s > threshold then extent + connected_lobe.2.value else extent)

/-- One iteration of the loop over `lobe` of `TFCEConnectivity::operator()`. -/
def TFCEConnectivity.accumulate (pow : value_type → value_type → value_type)
    (T : TFCEConnectivity) (stats : List value_type) (threshold : value_type)
    (lobe : Nat) (tfce_stats : List value_type) : Except Fault (List value_type) :=
  match read T.connectivity_map lobe with
  | .error e => .error e
  | .ok m =>
    match TFCEConnectivity.extent stats threshold m 0 with
    | .error e => .error e
    | .ok extent =>
      match read tfce_stats lobe with
      | .error e => .error e
      | .ok x => write tfce_stats lobe (x + pow extent T.E * pow threshold T.H)

/-- The body of the threshold loop of `TFCEConnectivity::operator()`. -/
def TFCEConnectivity.body (pow : value_type → value_type → value_type) (T : TFCEConnectivity)
    (stats : List value_type) (threshold : value_type) (tfce_stats : List value_type) :
    Except Fault (List value_type) :=
  for_loop (T.accumulate pow stats threshold) 0 T.connectivity_map.length tfce_stats

/-- The call `TFCEConnectivity::operator() (max_stat, stats, tfce_stats)`: the
accumulator afterwards and the returned maximum.  The closing scan runs over
`stats.size()`. -/
def TFCEConnectivity.call (pow : value_type → value_type → value_type) (T : TFCEConnectivity)
    (fuel : Nat) (max_stat : value_type) (stats tfce_stats : List value_type) :
    Except Fault (List value_type × value_type) :=
  match threshold_loop (T.body pow stats) T.dh max_stat fuel T.dh tfce_stats with
  | .error e => .error e
  | .ok tfce_stats1 =>
    match max_scan stats.length tfce_stats1 with
    | .error e => .error e
    | .ok max_tfce_stat => .ok (tfce_stats1, max_tfce_stat)

/-! ## The two integrators as the `TFCEType` of the worker -/

/-- The integrator types of this file that instantiate the template parameter
`TFCEType` of `ThreadKernel`. -/
inductive TFCEType where
  | spatial (T : TFCESpatial)
  | connectivity (T : TFCEConnectivity)

/-- The call `tfce_integrator (max_stat, stats, tfce_stats)` for either integrator. -/
def TFCEType.call (pow : value_type → value_type → value_type) (I : TFCEType) (fuel : Nat)
    (max_stat : value_type) (stats tfce_stats : List value_type) :
    Except Fault (List value_type × value_type) :=
  match I with
  | .spatial T => T.call pow fuel max_stat stats tfce_stats
  | .connectivity T => T.call pow fuel max_stat stats tfce_stats

/-- The body of the threshold loop of either integrator. -/
def TFCEType.body (pow : value_type → value_type → value_type) (I : TFCEType)
    (stats : List value_type) (threshold : value_type) (tfce_stats : List value_type) :
    Except Fault (List value_type) :=
  match I with
  | .spatial T => T.body pow stats threshold tfce_stats
  | .connectivity T => T.body pow stats threshold tfce_stats

/-- The threshold step of either integrator. -/
def TFCEType.dh : TFCEType → value_type
  | .spatial T => T.dh
  | .connectivity T => T.dh

/-! ## ThreadKernel -/

/-- The five output objects that the caller passes by reference to the constructor of
`ThreadKernel`. -/
structure Outputs where
  perm_distribution_pos : List value_type
  perm_distribution_neg : List value_type
  tfce_output_pos : List value_type
  tfce_output_neg : List value_type
  tvalue_output : List value_type
  deriving DecidableEq

/-- The data members of `ThreadKernel` that are objects of the kernel.  In the member
declarations
`Math::Vector<value_type>& perm_distribution_pos,  perm_distribution_neg;` and
`std::vector<value_type>& tfce_output_pos, tfce_output_neg, tvalue_output;`
the `&` belongs to the first declarator only: `perm_distribution_pos` and
`tfce_output_pos` are references to the caller's objects, the other three are members
held by value (`Math::Vector` is declared in `math/vector.h`; its copy constructor is
taken to copy the entries, as that of `std::vector` does).  The members `dh`, `E`, `H`
are initialised from themselves and never read. -/
structure ThreadKernel where
  perm_distribution_neg : List value_type
  tfce_output_neg : List value_type
  tvalue_output : List value_type
  deriving DecidableEq

/-- The objects a `ThreadKernel` can reach: the caller's outputs and its own members. -/
structure Memory where
  caller : Outputs
  kernel : ThreadKernel
  deriving DecidableEq

/-- The constructor of `ThreadKernel`: the two reference members are bound to the
caller's objects, the three value members are copy-constructed from them. -/
def ThreadKernel.new (caller : Outputs) : Memory :=
  { caller := caller
    kernel :=
      { perm_distribution_neg := caller.perm_distribution_neg
        tfce_output_neg := caller.tfce_output_neg
        tvalue_output := caller.tvalue_output } }

/-- The member named on the left of an assignment of `ThreadKernel::operator()`. -/
inductive Target where
  | tvalue_output
  | tfce_output_pos
  | tfce_output_neg
  | perm_distribution_pos (slot : Nat)
  | perm_distribution_neg (slot : Nat)
  deriving DecidableEq

/-- The template parameter `StatsType`, called as
`stats_calculator (item.labelling, stats, max_stat, min_stat)` on an empty `stats` and
`max_stat = min_stat = 0`: from a labelling to the statistics, `max_stat` and `min_stat`
afterwards. -/
abbrev StatsType := List Nat → Except Fault (List value_type × value_type × value_type)

/-- One iteration of the loop of `ThreadKernel::operator()` between the two integrator
calls, on the pair `(stats, tfce_stats)`: `stats[i] = -stats[i]; tfce_stats[i] = 0.0;`. -/
def ThreadKernel.negate_and_reset_step (i : Nat) (s : List value_type × List value_type) :
    Except Fault (List value_type × List value_type) :=
  match read s.1 i with
  | .error e => .error e
  | .ok x =>
    match write s.1 i (-x) with
    | .error e => .error e
    | .ok stats1 =>
      match write s.2 i 0 with
      | .error e => .error e
      | .ok tfce_stats1 => .ok (stats1, tfce_stats1)

/-- The loop of `ThreadKernel::operator()` between the two integrator calls,
`for (size_t i = 0; i < stats.size(); ++i)`. -/
def ThreadKernel.negate_and_reset (stats tfce_stats : List value_type) :
    Except Fault (List value_type × List value_type) :=
  for_loop ThreadKernel.negate_and_reset_step 0 stats.length (stats, tfce_stats)

/-- The call `ThreadKernel::operator() (const PermutationItem& item)`: the returned
flag, the memory afterwards and the members assigned, in the order of assignment. -/
def ThreadKernel.call (stats_calculator : StatsType)
    (tfce_integrator : value_type → List value_type → List value_type →
      Except Fault (List value_type × value_type))
    (m : Memory) (item : PermutationItem) : Except Fault (Bool × Memory × List Target) :=
  match stats_calculator item.labelling with
  | .error e => .error e
  | .ok (stats, max_stat, min_stat) =>
    let m1 : Memory × List Target :=
      if item.index = 0 then
        ({ m with kernel := { m.kernel with tvalue_output := stats } }, [Target.tvalue_output])
      else (m, [])
    match tfce_integrator max_stat stats (List.replicate stats.length 0) with
    | .error e => .error e
    | .ok (tfce_stats, max_tfce_stat) =>
      let r2 : Except Fault (Memory × List Target) :=
        if item.index = 0 then
          .ok ({ m1.1 with caller := { m1.1.caller with tfce_output_pos := tfce_stats } },
               m1.2 ++ [Target.tfce_output_pos])
        else
          match write m1.1.caller.perm_distribution_pos (item.index - 1) max_tfce_stat with
          | .error e => .error e
          | .ok v =>
            .ok ({ m1.1 with caller := { m1.1.caller with perm_distribution_pos := v } },
                 m1.2 ++ [Target.perm_distribution_pos (item.index - 1)])
      match r2 with
      | .error e => .error e
      | .ok m2 =>
        match ThreadKernel.negate_and_reset stats tfce_stats with
        | .error e => .error e
        | .ok (stats1, tfce_stats1) =>
          match tfce_integrator (-min_stat) stats1 tfce_stats1 with
          | .error e => .error e
          | .ok (tfce_stats2, max_tfce_stat2) =>
            if item.index = 0 then
              .ok (true,
                   { m2.1 with kernel := { m2.1.kernel with tfce_output_neg := tfce_stats2 } },
                   m2.2 ++ [Target.tfce_output_neg])
            else
              match write m2.1.kernel.perm_distribution_neg (item.index - 1) max_tfce_stat2 with
              | .error e => .error e
              | .ok v =>
                .ok (true,
                     { m2.1 with kernel := { m2.1.kernel with perm_distribution_neg := v } },
                     m2.2 ++ [Target.perm_distribution_neg (item.index - 1)])

/-- The call `ThreadKernel::operator() (const PermutationItem& item)` once more, this
time with the memory and the assignments made up to the point where the call ends,
also when it ends in a failure: the memory, the members assigned and the outcome. -/
def ThreadKernel.exec (stats_calculator : StatsType)
    (tfce_integrator : value_type → List value_type → List value_type →
      Except Fault (List value_type × value_type))
    (m : Memory) (item : PermutationItem) : Memory × List Target × Except Fault Bool :=
  match stats_calculator item.labelling with
  | .error e => (m, [], .error e)
  | .ok (stats, max_stat, min_stat) =>
    let m1 : Memory × List Target :=
      if item.index = 0 then
        ({ m with kernel := { m.kernel with tvalue_output := stats } }, [Target.tvalue_output])
      else (m, [])
    match tfce_integrator max_stat stats (List.replicate stats.length 0) with
    | .error e => (m1.1, m1.2, .error e)
    | .ok (tfce_stats, max_tfce_stat) =>
      let r2 : Except Fault (Memory × List Target) :=
        if item.index = 0 then
          .ok ({ m1.1 with caller := { m1.1.caller with tfce_output_pos := tfce_stats } },
               m1.2 ++ [Target.tfce_output_pos])
        else
          match write m1.1.caller.perm_distribution_pos (item.index - 1) max_tfce_stat with
          | .error e => .error e
          | .ok v =>
            .ok ({ m1.1 with caller := { m1.1.caller with perm_distribution_pos := v } },
                 m1.2 ++ [Target.perm_distribution_pos (item.index - 1)])
      match r2 with
      | .error e => (m1.1, m1.2, .error e)
      | .ok m2 =>
        match ThreadKernel.negate_and_reset stats tfce_stats with
        | .error e => (m2.1, m2.2, .error e)
        | .ok (stats1, tfce_stats1) =>
          match tfce_integrator (-min_stat) stats1 tfce_stats1 with
          | .error e => (m2.1, m2.2, .error e)
          | .ok (tfce_stats2, max_tfce_stat2) =>
            if item.index = 0 then
              ({ m2.1 with kernel := { m2.1.kernel with tfce_output_neg := tfce_stats2 } },
               m2.2 ++ [Target.tfce_output_neg], .ok true)
            else
              match write m2.1.kernel.perm_distribution_neg (item.index - 1) max_tfce_stat2 with
              | .error e => (m2.1, m2.2, .error e)
              | .ok v =>
                ({ m2.1 with kernel := { m2.1.kernel with perm_distribution_neg := v } },
                 m2.2 ++ [Target.perm_distribution_neg (item.index - 1)], .ok true)

/-- The memory after the assignments of `ThreadKernel::operator()` for an item of index
`index`, given the values it assigns. -/
def ThreadKernel.store (m : Memory) (index : Nat) (stats enh enh2 : List value_type)
    (mx mx2 : value_type) : Memory :=
  if index = 0 then
    { caller := { m.caller with tfce_output_pos := enh }
      kernel := { m.kernel with tvalue_output := stats, tfce_output_neg := enh2 } }
  else
    { caller := { m.caller with
        perm_distribution_pos := m.caller.perm_distribution_pos.set (index - 1) mx }
      kernel := { m.kernel with
        perm_distribution_neg := m.kernel.perm_distribution_neg.set (index - 1) mx2 } }

/-- The part of `ThreadKernel::operator()` that does not look at the outputs: the
calculator, the positive integrator call, the loop in between and the negative
integrator call all return, with the values that the call then assigns. -/
def ThreadKernel.computes (stats_calculator : StatsType)
    (tfce_integrator : value_type → List value_type → List value_type →
      Except Fault (List value_type × value_type))
    (item : PermutationItem) (stats enh enh2 : List value_type) (mx mx2 : value_type) : Prop :=
  ∃ max_stat min_stat stats1 acc1,
    stats_calculator item.labelling = .ok (stats, max_stat, min_stat) ∧
    tfce_integrator max_stat stats (List.replicate stats.length 0) = .ok (enh, mx) ∧
    ThreadKernel.negate_and_reset stats enh = .ok (stats1, acc1) ∧
    tfce_integrator (-min_stat) stats1 acc1 = .ok (enh2, mx2)

/-! ## A run: the loader drained, the worker applied to every item -/

/-- The worker applied to the items of a list one after another: the memory afterwards
and the members assigned, each with the index of the item that assigned it. -/
def ThreadKernel.run (stats_calculator : StatsType)
    (tfce_integrator : value_type → List value_type → List value_type →
      Except Fault (List value_type × value_type)) :
    Memory → List PermutationItem → Except Fault (Memory × List (Nat × Target))
  | m, [] => .ok (m, [])
  | m, item :: rest =>
    match ThreadKernel.call stats_calculator tfce_integrator m item with
    | .error e => .error e
    | .ok r =>
      match ThreadKernel.run stats_calculator tfce_integrator r.2.1 rest with
      | .error e => .error e
      | .ok r1 => .ok (r1.1, r.2.2.map (fun t => (item.index, t)) ++ r1.2)

/-- The members that `ThreadKernel::operator()` assigns for an item of index `k`. -/
def ThreadKernel.targets (k : Nat) : List Target :=
  if k = 0 then [Target.tvalue_output, Target.tfce_output_pos, Target.tfce_output_neg]
  else [Target.perm_distribution_pos (k - 1), Target.perm_distribution_neg (k - 1)]

/-- The greater of the running maximum and the next entry, as the closing scan of the
integrators computes it. -/
def scan_step (max_tfce_stat x : value_type) : value_type :=
  if x > max_tfce_stat then x else max_tfce_stat

/-! ## Quantities that the claims speak of -/

/-- The connector's answer at threshold `t` can be used for `n` elements: every element
has a label, and every non-zero label names one of the reported clusters. -/
def labels_ok (c : Connector) (n : Nat) (stats : List value_type) (t : value_type) : Prop :=
  n ≤ (c (List.replicate n 0) stats t).2.length ∧
  ∀ i, i < n → (c (List.replicate n 0) stats t).2.getD i 0 ≠ 0 →
    (c (List.replicate n 0) stats t).2.getD i 0 - 1 < (c (List.replicate n 0) stats t).1.length

instance (c : Connector) (n : Nat) (stats : List value_type) (t : value_type) :
    Decidable (labels_ok c n stats t) := by
  unfold labels_ok
  infer_instance

/-- The contribution of threshold `t` to element `i` under the spatial integrator:
`size ^ E * t ^ H` for the cluster `clusters[label - 1]` that the connector reports for
`i` at `t`, and nothing when the label of `i` is 0. -/
def spatial_term (pow : value_type → value_type → value_type) (T : TFCESpatial)
    (stats : List value_type) (n i : Nat) (t : value_type) : value_type :=
  match (T.connector (List.replicate n 0) stats t).2[i]? with
  | some l =>
    if l ≠ 0 then
      match (T.connector (List.replicate n 0) stats t).1[l - 1]? with
      | some c => pow (c.size : value_type) T.E * pow t T.H
      | none => 0
    else 0
  | none => 0

/-- Every key of every per-element map is an element id below `n`. -/
def keys_valid (cm : List (List (Int × connectivity))) (n : Nat) : Prop :=
  ∀ m, m ∈ cm → ∀ p, p ∈ m → 0 ≤ p.1 ∧ p.1.toNat < n

instance (cm : List (List (Int × connectivity))) (n : Nat) : Decidable (keys_valid cm n) := by
  unfold keys_valid
  infer_instance

/-- The statistic of the element `key` exceeds the threshold `t`. -/
def exceeds (stats : List value_type) (t : value_type) (key : Int) : Bool :=
  match stats[key.toNat]? with
  | some s => decide (0 ≤ key ∧ s > t)
  | none => false

/-- The sum of the weights `m[j]` over the mapped neighbours `j` with `stats[j] > t`. -/
def neighbour_weight (stats : List value_type) (t : value_type)
    (m : List (Int × connectivity)) : value_type :=
  ((m.filter fun p => exceeds stats t p.1).map fun p => p.2.value).sum

/-- The contribution of threshold `t` to element `i` under the connectivity integrator:
`(sum of the weights to the neighbours above t) ^ E * t ^ H`. -/
def connectivity_term (pow : value_type → value_type → value_type) (T : TFCEConnectivity)
    (stats : List value_type) (i : Nat) (t : value_type) : value_type :=
  pow (neighbour_weight stats t (T.connectivity_map.getD i [])) T.E * pow t T.H

/-- The number of entries the closing scan of an integrator visits, given the sizes of
the accumulator and of `stats`: `tfce_stats.size()` in `TFCESpatial`, `stats.size()` in
`TFCEConnectivity`. -/
def TFCEType.scan_length : TFCEType → Nat → Nat → Nat
  | .spatial _, tfce_stats_size, _ => tfce_stats_size
  | .connectivity _, _, stats_size => stats_size

/-- The inputs of an integrator call with an accumulator of `n` entries are usable.
Spatial: the connector labels every element and reports the clusters it names, at every
threshold of the sweep.  Connectivity: the keys of the map are element ids, and the
accumulator has an entry for every element of the map and of `stats`. -/
def TFCEType.inputs_ok (I : TFCEType) (max_stat : value_type) (stats : List value_type)
    (n : Nat) : Prop :=
  match I with
  | .spatial T =>
    ∀ k : Nat, ((k : value_type) + 1) * T.dh < max_stat →
      labels_ok T.connector n stats (((k : value_type) + 1) * T.dh)
  | .connectivity T =>
    keys_valid T.connectivity_map stats.length ∧ T.connectivity_map.length ≤ n ∧
      stats.length ≤ n

/-- The frame of a call for an item of index `k ≥ 1`, between the memory `m` before and
`m1` after: the observed maps and the observed statistic are as before, in the caller's
objects and in the kernel's members, and so is every slot of the two permutation
distributions other than slot `k - 1`. -/
def ThreadKernel.frame_permuted (m m1 : Memory) (k : Nat) : Prop :=
  m1.caller.tfce_output_pos = m.caller.tfce_output_pos ∧
  m1.caller.tfce_output_neg = m.caller.tfce_output_neg ∧
  m1.caller.tvalue_output = m.caller.tvalue_output ∧
  m1.kernel.tfce_output_neg = m.kernel.tfce_output_neg ∧
  m1.kernel.tvalue_output = m.kernel.tvalue_output ∧
  (∀ j, j ≠ k - 1 → m1.caller.perm_distribution_pos[j]? = m.caller.perm_distribution_pos[j]?) ∧
  (∀ j, j ≠ k - 1 → m1.caller.perm_distribution_neg[j]? = m.caller.perm_distribution_neg[j]?) ∧
  (∀ j, j ≠ k - 1 → m1.kernel.perm_distribution_neg[j]? = m.kernel.perm_distribution_neg[j]?)

/-- The frame of a call for the item of index 0: the permutation distributions are as
before, in the caller's objects and in the kernel's member. -/
def ThreadKernel.frame_observed (m m1 : Memory) : Prop :=
  m1.caller.perm_distribution_pos = m.caller.perm_distribution_pos ∧
  m1.caller.perm_distribution_neg = m.caller.perm_distribution_neg ∧
  m1.kernel.perm_distribution_neg = m.kernel.perm_distribution_neg

/-- The function `pow` at exponents that are natural numbers. -/
def nat_pow (x e : value_type) : value_type := x ^ e.num.toNat

/-- A connector over a domain in which all elements are adjacent: the elements whose
statistic exceeds the threshold form one cluster with label 1 when there is one, the
others keep the label passed in. -/
def one_cluster : Connector := fun labels stats threshold =>
  if (stats.filter fun s => s > threshold).length = 0 then ([], labels)
  else
    ([{ size := (stats.filter fun s => s > threshold).length }],
     List.zipWith (fun (l : Nat) (s : value_type) => if s > threshold then 1 else l) labels stats)

/-! ## Loops: general lemmas -/

theorem read_eq_ok {α : Type} (v : List α) (i : Nat) (h : i < v.length) :
    read v i = .ok (v.get ⟨i, h⟩) := by
  simp [read, List.getElem?_eq_getElem h]

theorem read_eq_error {α : Type} (v : List α) (i : Nat) (h : v.length ≤ i) :
    read v i = .error .out_of_range := by
  simp [read, List.getElem?_eq_none h]

theorem mapIdx_range_step {α : Type} (s : List α) (g : Nat → α → α) (i k : Nat) :
    (s.mapIdx fun p x => if p = i then g i x else x).mapIdx
        (fun p x => if i + 1 ≤ p ∧ p < i + 1 + k then g p x else x) =
      s.mapIdx fun p x => if i ≤ p ∧ p < i + (k + 1) then g p x else x := by
  apply List.ext_getElem?
  intro p
  simp only [List.getElem?_mapIdx]
  cases s[p]? with
  | none => simp
  | some x =>
    simp only [Option.map_some']
    by_cases h1 : p = i
    · subst h1
      simp
    · by_cases h2 : i + 1 ≤ p ∧ p < i + 1 + k
      · have h3 : i ≤ p ∧ p < i + (k + 1) := by omega
        simp [h1, h2, h3]
      · have h3 : ¬ (i ≤ p ∧ p < i + (k + 1)) := by omega
        simp [h1, h2, h3]

/-- A loop whose iteration `j` rewrites entry `j` of a vector by `g j` rewrites the
entries `i .. i + k - 1`. -/
theorem for_loop_pointwise {α : Type} (body : Nat → List α → Except Fault (List α))
    (g : Nat → α → α) (L : Nat) :
    ∀ (k i : Nat) (s : List α), s.length = L →
      (∀ j, i ≤ j → j < i + k → ∀ t : List α, t.length = L →
        body j t = .ok (t.mapIdx fun p x => if p = j then g j x else x)) →
      for_loop body i k s = .ok (s.mapIdx fun p x => if i ≤ p ∧ p < i + k then g p x else x) := by
  intro k
  induction k with
  | zero =>
    intro i s _ _
    simp only [for_loop]
    congr 1
    apply List.ext_getElem?
    intro p
    rw [List.getElem?_mapIdx]
    cases s[p]? with
    | none => simp
    | some x =>
      have h3 : ¬ (i ≤ p ∧ p < i) := by omega
      simp [h3]
  | succ k ih =>
    intro i s hs hb
    simp only [for_loop]
    rw [hb i (le_refl i) (by omega) s hs]
    simp only
    rw [ih (i + 1) _ (by rw [List.length_mapIdx]; exact hs)
      (fun j h1 h2 t ht => hb j (by omega) (by omega) t ht)]
    rw [mapIdx_range_step s g i k]

theorem for_loop_max (v : List value_type) :
    ∀ (k i : Nat) (m : value_type), i + k ≤ v.length →
      for_loop (fun i max_tfce_stat =>
        match read v i with
        | .ok x => .ok (if x > max_tfce_stat then x else max_tfce_stat)
        | .error e => .error e) i k m = .ok (((v.drop i).take k).foldl scan_step m) := by
  intro k
  induction k with
  | zero => intro i m _; simp [for_loop]
  | succ k ih =>
    intro i m h
    have hi : i < v.length := by omega
    simp only [for_loop]
    rw [read_eq_ok v i hi]
    simp only
    rw [ih (i + 1) _ (by omega)]
    rw [List.drop_eq_getElem_cons hi, List.take_succ_cons, List.foldl_cons]
    simp [scan_step]

theorem max_scan_eq (v : List value_type) (n : Nat) (h : n ≤ v.length) :
    max_scan n v = .ok ((v.take n).foldl scan_step 0) := by
  unfold max_scan
  rw [for_loop_max v n 0 0 (by omega)]
  simp

theorem max_scan_fault (v : List value_type) (n : Nat) (h : v.length < n) :
    max_scan n v = .error .out_of_range := by
  unfold max_scan
  have key : ∀ (k i : Nat) (m : value_type), i ≤ v.length → v.length < i + k →
      for_loop (fun i max_tfce_stat =>
        match read v i with
        | .ok x => .ok (if x > max_tfce_stat then x else max_tfce_stat)
        | .error e => .error e) i k m = .error .out_of_range := by
    intro k
    induction k with
    | zero => intro i m h1 h2; omega
    | succ k ih =>
      intro i m h1 h2
      simp only [for_loop]
      by_cases hi : i < v.length
      · rw [read_eq_ok v i hi]
        simp only
        exact ih (i + 1) _ (by omega) (by omega)
      · rw [read_eq_error v i (by omega)]
  exact key n 0 0 (by omega) (by omega)

theorem foldl_scan_ge (l : List value_type) :
    ∀ m : value_type, m ≤ l.foldl scan_step m ∧ (∀ x ∈ l, x ≤ l.foldl scan_step m) ∧
      (l.foldl scan_step m = m ∨ l.foldl scan_step m ∈ l) := by
  induction l with
  | nil => intro m; simp
  | cons a l ih =>
    intro m
    obtain ⟨h1, h2, h3⟩ := ih (scan_step m a)
    have hm : m ≤ scan_step m a := by
      unfold scan_step; split_ifs with h
      · exact le_of_lt h
      · exact le_refl m
    have ha : a ≤ scan_step m a := by
      unfold scan_step; split_ifs with h
      · exact le_refl a
      · exact not_lt.mp h
    have hc : scan_step m a = m ∨ scan_step m a = a := by
      unfold scan_step; split_ifs <;> simp
    simp only [List.foldl_cons, List.mem_cons]
    refine ⟨le_trans hm h1, ?_, ?_⟩
    · intro x hx
      rcases hx with rfl | hx
      · exact le_trans ha h1
      · exact h2 x hx
    · rcases h3 with h3 | h3
      · rcases hc with hc | hc
        · left; rw [h3, hc]
        · right; left; rw [h3, hc]
      · right; right; exact h3

theorem threshold_loop_done (body : value_type → List value_type → Except Fault (List value_type))
    (dh max_stat : value_type) (fuel : Nat) (threshold : value_type) (acc : List value_type)
    (h : ¬ threshold < max_stat) :
    threshold_loop body dh max_stat fuel threshold acc = .ok acc := by
  cases fuel <;> simp [threshold_loop, h]

/-- A sweep whose body adds `c i t` to entry `i` at threshold `t` adds the sum of the
`c i t` over the thresholds visited. -/
theorem threshold_loop_sum (body : value_type → List value_type → Except Fault (List value_type))
    (c : Nat → value_type → value_type) (dh max_stat : value_type) (L : Nat) :
    ∀ (N : Nat) (thr : value_type) (acc : List value_type), acc.length = L →
      (∀ k : Nat, k < N → thr + k * dh < max_stat) → ¬ (thr + N * dh < max_stat) →
      (∀ k : Nat, k < N → ∀ a : List value_type, a.length = L →
        body (thr + k * dh) a = .ok (a.mapIdx fun i x => x + c i (thr + k * dh))) →
      ∀ fuel, N ≤ fuel →
        threshold_loop body dh max_stat fuel thr acc =
          .ok (acc.mapIdx fun i x => x + ∑ k in Finset.range N, c i (thr + k * dh)) := by
  intro N
  induction N with
  | zero =>
    intro thr acc _ _ hstop _ fuel _
    rw [threshold_loop_done body dh max_stat fuel thr acc (by simpa using hstop)]
    congr 1
    apply List.ext_getElem?
    intro p
    rw [List.getElem?_mapIdx]
    cases acc[p]? <;> simp
  | succ N ih =>
    intro thr acc hacc hlt hstop hbody fuel hfuel
    obtain ⟨f, rfl⟩ : ∃ f, fuel = f + 1 := ⟨fuel - 1, by omega⟩
    have h0 : thr < max_stat := by simpa using hlt 0 (by omega)
    have hb0 := hbody 0 (by omega) acc hacc
    simp only [Nat.cast_zero, zero_mul, add_zero] at hb0
    simp only [threshold_loop, if_pos h0, hb0]
    have e : ∀ k : Nat, thr + dh + (k : value_type) * dh = thr + ((k + 1 : Nat) : value_type) * dh := by
      intro k; push_cast; ring
    rw [ih (thr + dh) _ (by rw [List.length_mapIdx]; exact hacc)
      (fun k hk => by rw [e]; exact hlt (k + 1) (by omega))
      (by rw [e]; exact hstop)
      (fun k hk a ha => by rw [e]; exact hbody (k + 1) (by omega) a ha)
      f (by omega)]
    congr 1
    apply List.ext_getElem?
    intro p
    simp only [List.getElem?_mapIdx]
    cases acc[p]? with
    | none => simp
    | some x =>
      simp only [Option.map_some', Option.some.injEq]
      rw [Finset.sum_range_succ']
      simp only [e, Nat.cast_zero, zero_mul, add_zero]
      ring

/-- For a positive step the thresholds `dh, 2 dh, ...` below `max_stat` are the first
`N` of them, for some `N`. -/
theorem sweep_count_exists (dh max_stat : value_type) (hdh : 0 < dh) :
    ∃ N : Nat, ∀ k : Nat, ((k : value_type) + 1) * dh < max_stat ↔ k < N := by
  refine ⟨(⌈max_stat / dh⌉ - 1).toNat, fun k => ?_⟩
  rw [Int.lt_toNat, ← lt_div_iff₀ hdh]
  have h : ((k : value_type) + 1) = (((k : Int) + 1 : Int) : value_type) := by push_cast; ring
  rw [h, ← Int.lt_ceil]
  omega

theorem mapIdx_set_eq {α : Type} (t : List α) (j : Nat) (y : α) (f : α → α)
    (h : t[j]? = some y) :
    t.set j (f y) = t.mapIdx fun p x => if p = j then f x else x := by
  apply List.ext_getElem?
  intro p
  rw [List.getElem?_mapIdx, List.getElem?_set]
  by_cases hp : j = p
  · subst hp
    have hj : j < t.length := by
      by_contra hc
      rw [List.getElem?_eq_none (by omega)] at h
      cases h
    simp [h, hj]
  · have hp2 : ¬ p = j := fun e => hp e.symm
    cases t[p]? <;> simp [hp, hp2]

theorem mapIdx_id_eq {α : Type} (t : List α) (f : Nat → α → α)
    (h : ∀ p x, t[p]? = some x → f p x = x) : t.mapIdx f = t := by
  apply List.ext_getElem?
  intro p
  rw [List.getElem?_mapIdx]
  cases hx : t[p]? with
  | none => simp
  | some x => simp [h p x hx]

theorem TFCESpatial.spatial_accumulate_eq (pow : value_type → value_type → value_type)
    (T : TFCESpatial) (stats : List value_type) (n : Nat) (t : value_type)
    (hok : labels_ok T.connector n stats t) (j : Nat) (hj : j < n)
    (a : List value_type) (ha : a.length = n) :
    T.accumulate pow t (T.connector (List.replicate n 0) stats t).1
        (T.connector (List.replicate n 0) stats t).2 j a =
      .ok (a.mapIdx fun p x => if p = j then x + spatial_term pow T stats n j t else x) := by
  obtain ⟨hlen, hcl⟩ := hok
  have hl : j < (T.connector (List.replicate n 0) stats t).2.length := by omega
  have hlab := List.getElem?_eq_getElem hl
  have haj : j < a.length := by omega
  have hacc := List.getElem?_eq_getElem haj
  unfold TFCESpatial.accumulate spatial_term
  simp only [read, hlab, hacc]
  by_cases h0 : (T.connector (List.replicate n 0) stats t).2[j] = 0
  · simp only [h0, ne_eq, not_true_eq_false, if_false]
    congr 1
    symm
    apply mapIdx_id_eq
    intro p x _
    split_ifs <;> simp
  · have hc := hcl j hj
    rw [List.getD_eq_getElem _ _ hl] at hc
    have hc := hc h0
    have hcg := List.getElem?_eq_getElem hc
    simp only [ne_eq, h0, not_false_eq_true, if_true, hcg, write, haj]
    congr 1
    exact mapIdx_set_eq a j _ (fun x => x + pow _ T.E * pow t T.H) hacc

theorem TFCESpatial.spatial_body_eq (pow : value_type → value_type → value_type)
    (T : TFCESpatial) (stats : List value_type) (t : value_type) (a : List value_type)
    (hok : labels_ok T.connector a.length stats t) :
    T.body pow stats t a =
      .ok (a.mapIdx fun i x => x + spatial_term pow T stats a.length i t) := by
  unfold TFCESpatial.body
  simp only
  rw [for_loop_pointwise _ (fun j x => x + spatial_term pow T stats a.length j t) a.length
    a.length 0 a rfl
    (fun j _ hj b hb => T.spatial_accumulate_eq pow stats a.length t hok j (by omega) b hb)]
  congr 1
  apply List.ext_getElem?
  intro p
  simp only [List.getElem?_mapIdx]
  by_cases hp : p < a.length
  · simp [hp]
  · rw [List.getElem?_eq_none (by omega)]
    simp

theorem TFCEConnectivity.extent_eq (stats : List value_type) (t : value_type) :
    ∀ (m : List (Int × connectivity)) (e0 : value_type),
      (∀ p, p ∈ m → 0 ≤ p.1 ∧ p.1.toNat < stats.length) →
      TFCEConnectivity.extent stats t m e0 = .ok (e0 + neighbour_weight stats t m) := by
  intro m
  induction m with
  | nil => intro e0 _; simp [TFCEConnectivity.extent, neighbour_weight]
  | cons p m ih =>
    intro e0 h
    obtain ⟨h0, h1⟩ := h p (List.mem_cons_self p m)
    have hr := List.getElem?_eq_getElem h1
    simp only [TFCEConnectivity.extent, if_neg (not_lt.mpr h0), read, hr]
    rw [ih _ (fun q hq => h q (List.mem_cons_of_mem p hq))]
    congr 1
    unfold neighbour_weight
    rw [List.filter_cons]
    by_cases hgt : stats[p.1.toNat] > t
    · have hex : exceeds stats t p.1 = true := by simp [exceeds, hr, h0, hgt]
      simp only [hex, if_true, if_pos hgt, List.map_cons, List.sum_cons]
      ring
    · have hex : exceeds stats t p.1 = false := by simp [exceeds, hr, hgt]
      simp [hex, if_neg hgt]

theorem TFCEConnectivity.connectivity_accumulate_eq (pow : value_type → value_type → value_type)
    (T : TFCEConnectivity) (stats : List value_type) (t : value_type)
    (hkeys : keys_valid T.connectivity_map stats.length) (j : Nat)
    (hj : j < T.connectivity_map.length) (a : List value_type) (ha : j < a.length) :
    T.accumulate pow stats t j a =
      .ok (a.mapIdx fun p x => if p = j then x + connectivity_term pow T stats j t else x) := by
  have hm := List.getElem?_eq_getElem hj
  have hacc := List.getElem?_eq_getElem ha
  have hext := TFCEConnectivity.extent_eq stats t (T.connectivity_map[j]) 0
    (hkeys _ (List.getElem_mem hj))
  unfold TFCEConnectivity.accumulate connectivity_term
  simp only [read, hm, hext, hacc, write, ha, if_true, zero_add]
  congr 1
  have hd : T.connectivity_map.getD j [] = T.connectivity_map[j] := by
    simp [List.getD, hm]
  rw [hd]
  exact mapIdx_set_eq a j _ (fun x => x + pow _ T.E * pow t T.H) hacc

theorem TFCEConnectivity.connectivity_body_eq (pow : value_type → value_type → value_type)
    (T : TFCEConnectivity) (stats : List value_type) (t : value_type)
    (hkeys : keys_valid T.connectivity_map stats.length) (a : List value_type)
    (ha : T.connectivity_map.length ≤ a.length) :
    T.body pow stats t a =
      .ok (a.mapIdx fun i x =>
        x + if i < T.connectivity_map.length then connectivity_term pow T stats i t else 0) := by
  unfold TFCEConnectivity.body
  rw [for_loop_pointwise _ (fun j x => x + connectivity_term pow T stats j t) a.length
    T.connectivity_map.length 0 a rfl
    (fun j _ hj b hb => T.connectivity_accumulate_eq pow stats t hkeys j (by omega) b (by omega))]
  congr 1
  apply List.ext_getElem?
  intro p
  simp only [List.getElem?_mapIdx]
  by_cases hp : p < T.connectivity_map.length
  · simp [hp]
  · cases a[p]? <;> simp [hp]

/-! ### Length of the accumulator -/

theorem for_loop_inv {σ : Type} (body : Nat → σ → Except Fault σ) (P : σ → Prop)
    (hbody : ∀ i s s1, P s → body i s = .ok s1 → P s1) :
    ∀ (k i : Nat) (s s1 : σ), P s → for_loop body i k s = .ok s1 → P s1 := by
  intro k
  induction k with
  | zero =>
    intro i s s1 hP h
    simp only [for_loop, Except.ok.injEq] at h
    exact h ▸ hP
  | succ k ih =>
    intro i s s1 hP h
    simp only [for_loop] at h
    cases hb : body i s with
    | error e => rw [hb] at h; cases h
    | ok s2 =>
      rw [hb] at h
      exact ih (i + 1) s2 s1 (hbody i s s2 hP hb) h

theorem threshold_loop_inv (body : value_type → List value_type → Except Fault (List value_type))
    (dh max_stat : value_type) (P : List value_type → Prop)
    (hbody : ∀ t s s1, P s → body t s = .ok s1 → P s1) :
    ∀ (fuel : Nat) (thr : value_type) (s s1 : List value_type), P s →
      threshold_loop body dh max_stat fuel thr s = .ok s1 → P s1 := by
  intro fuel
  induction fuel with
  | zero =>
    intro thr s s1 hP h
    simp only [threshold_loop] at h
    split_ifs at h
    simp only [Except.ok.injEq] at h
    exact h ▸ hP
  | succ fuel ih =>
    intro thr s s1 hP h
    simp only [threshold_loop] at h
    split_ifs at h
    · cases hb : body thr s with
      | error e => rw [hb] at h; cases h
      | ok s2 =>
        rw [hb] at h
        exact ih (thr + dh) s2 s1 (hbody thr s s2 hP hb) h
    · simp only [Except.ok.injEq] at h
      exact h ▸ hP

theorem write_length {α : Type} (v v1 : List α) (i : Nat) (x : α) (h : write v i x = .ok v1) :
    v1.length = v.length := by
  unfold write at h
  split_ifs at h
  simp only [Except.ok.injEq] at h
  rw [← h, List.length_set]

theorem TFCESpatial.spatial_accumulate_length (pow : value_type → value_type → value_type)
    (T : TFCESpatial) (t : value_type) (clusters : List cluster) (labels : List Nat) (n i : Nat)
    (s s1 : List value_type) (hs : s.length = n)
    (h : T.accumulate pow t clusters labels i s = .ok s1) : s1.length = n := by
  unfold TFCESpatial.accumulate at h
  split at h
  · cases h
  · split_ifs at h
    · split at h
      · rw [write_length _ _ _ _ h, hs]
      · cases h
      · cases h
    · simp only [Except.ok.injEq] at h
      rw [← h, hs]

theorem TFCESpatial.spatial_body_length (pow : value_type → value_type → value_type)
    (T : TFCESpatial) (stats : List value_type) (n : Nat) (t : value_type)
    (s s1 : List value_type) (hs : s.length = n) (h : T.body pow stats t s = .ok s1) :
    s1.length = n :=
  for_loop_inv _ (fun v => v.length = n)
    (fun i v v1 hv hb => T.spatial_accumulate_length pow t _ _ n i v v1 hv hb) _ _ s s1 hs h

theorem TFCEConnectivity.connectivity_accumulate_length (pow : value_type → value_type → value_type)
    (T : TFCEConnectivity) (stats : List value_type) (t : value_type) (n i : Nat)
    (s s1 : List value_type) (hs : s.length = n)
    (h : T.accumulate pow stats t i s = .ok s1) : s1.length = n := by
  unfold TFCEConnectivity.accumulate at h
  split at h
  · cases h
  · split at h
    · cases h
    · split at h
      · cases h
      · rw [write_length _ _ _ _ h, hs]

theorem TFCEConnectivity.connectivity_body_length (pow : value_type → value_type → value_type)
    (T : TFCEConnectivity) (stats : List value_type) (n : Nat) (t : value_type)
    (s s1 : List value_type) (hs : s.length = n) (h : T.body pow stats t s = .ok s1) :
    s1.length = n :=
  for_loop_inv _ (fun v => v.length = n)
    (fun i v v1 hv hb => T.connectivity_accumulate_length pow stats t n i v v1 hv hb) _ _ s s1 hs h

/-- What a returning call of either integrator returns: an accumulator of the length
passed in, and the result of the closing scan over it. -/
theorem TFCEType.call_ok (pow : value_type → value_type → value_type) (I : TFCEType)
    (fuel : Nat) (max_stat : value_type) (stats acc enhanced : List value_type)
    (m : value_type) (h : I.call pow fuel max_stat stats acc = .ok (enhanced, m)) :
    enhanced.length = acc.length ∧
      max_scan (I.scan_length acc.length stats.length) enhanced = .ok m := by
  cases I with
  | spatial T =>
    simp only [TFCEType.call, TFCESpatial.call] at h
    split at h
    · cases h
    · rename_i out hloop
      have hl := threshold_loop_inv _ _ _ (fun v => v.length = acc.length)
        (fun t v v1 hv hb => T.spatial_body_length pow stats acc.length t v v1 hv hb) _ _ _ _ rfl hloop
      split at h
      · cases h
      · rename_i mx hmx
        simp only [Except.ok.injEq, Prod.mk.injEq] at h
        obtain ⟨rfl, rfl⟩ := h
        exact ⟨hl, by simpa [hl, TFCEType.scan_length] using hmx⟩
  | connectivity T =>
    simp only [TFCEType.call, TFCEConnectivity.call] at h
    split at h
    · cases h
    · rename_i out hloop
      have hl := threshold_loop_inv _ _ _ (fun v => v.length = acc.length)
        (fun t v v1 hv hb => T.connectivity_body_length pow stats acc.length t v v1 hv hb) _ _ _ _ rfl hloop
      split at h
      · cases h
      · rename_i mx hmx
        simp only [Except.ok.injEq, Prod.mk.injEq] at h
        obtain ⟨rfl, rfl⟩ := h
        exact ⟨hl, hmx⟩

/-! ### The integrators in closed form -/

/-- The accumulator and the maximum that `TFCESpatial::operator()` returns, for any
initial accumulator, when `N` thresholds lie below `max_stat`. -/
theorem TFCESpatial.spatial_call_eq (pow : value_type → value_type → value_type)
    (T : TFCESpatial) (max_stat : value_type) (stats acc : List value_type) (N : Nat)
    (hN : ∀ k : Nat, ((k : value_type) + 1) * T.dh < max_stat ↔ k < N)
    (hconn : ∀ k : Nat, ((k : value_type) + 1) * T.dh < max_stat →
      labels_ok T.connector acc.length stats (((k : value_type) + 1) * T.dh))
    (fuel : Nat) (hfuel : N ≤ fuel) :
    T.call pow fuel max_stat stats acc =
      .ok (acc.mapIdx (fun i x => x + ∑ k in Finset.range N,
              spatial_term pow T stats acc.length i (((k : value_type) + 1) * T.dh)),
           (acc.mapIdx (fun i x => x + ∑ k in Finset.range N,
              spatial_term pow T stats acc.length i (((k : value_type) + 1) * T.dh))).foldl
             scan_step 0) := by
  have e : ∀ k : Nat, T.dh + (k : value_type) * T.dh = ((k : value_type) + 1) * T.dh := by
    intro k; ring
  have hloop := threshold_loop_sum (T.body pow stats)
    (fun i t => spatial_term pow T stats acc.length i t)
    T.dh max_stat acc.length N T.dh acc rfl
    (fun k hk => by rw [e]; exact (hN k).mpr hk)
    (by rw [e]; intro h; exact absurd ((hN N).mp h) (lt_irrefl N))
    (fun k hk a ha => by
      rw [e]
      have := T.spatial_body_eq pow stats (((k : value_type) + 1) * T.dh) a
        (by rw [ha]; exact hconn k ((hN k).mpr hk))
      rw [ha] at this
      exact this)
    fuel hfuel
  simp only [e] at hloop
  unfold TFCESpatial.call
  rw [hloop]
  simp only
  rw [max_scan_eq _ _ (le_refl _), List.take_length]

/-- The accumulator and the maximum that `TFCEConnectivity::operator()` returns, for any
initial accumulator, when `N` thresholds lie below `max_stat`. -/
theorem TFCEConnectivity.connectivity_call_eq (pow : value_type → value_type → value_type)
    (T : TFCEConnectivity) (max_stat : value_type) (stats acc : List value_type) (N : Nat)
    (hN : ∀ k : Nat, ((k : value_type) + 1) * T.dh < max_stat ↔ k < N)
    (hkeys : keys_valid T.connectivity_map stats.length)
    (hmap : T.connectivity_map.length ≤ acc.length) (hstats : stats.length ≤ acc.length)
    (fuel : Nat) (hfuel : N ≤ fuel) :
    T.call pow fuel max_stat stats acc =
      .ok (acc.mapIdx (fun i x => x + ∑ k in Finset.range N,
              if i < T.connectivity_map.length then
                connectivity_term pow T stats i (((k : value_type) + 1) * T.dh) else 0),
           ((acc.mapIdx (fun i x => x + ∑ k in Finset.range N,
              if i < T.connectivity_map.length then
                connectivity_term pow T stats i (((k : value_type) + 1) * T.dh)
              else 0)).take stats.length).foldl scan_step 0) := by
  have e : ∀ k : Nat, T.dh + (k : value_type) * T.dh = ((k : value_type) + 1) * T.dh := by
    intro k; ring
  have hloop := threshold_loop_sum (T.body pow stats)
    (fun i t => if i < T.connectivity_map.length then connectivity_term pow T stats i t else 0)
    T.dh max_stat acc.length N T.dh acc rfl
    (fun k hk => by rw [e]; exact (hN k).mpr hk)
    (by rw [e]; intro h; exact absurd ((hN N).mp h) (lt_irrefl N))
    (fun k hk a ha => T.connectivity_body_eq pow stats _ hkeys a (by omega))
    fuel hfuel
  simp only [e] at hloop
  unfold TFCEConnectivity.call
  rw [hloop]
  simp only
  rw [max_scan_eq _ _ (by simpa using hstats)]

/-- For a positive step and usable inputs a call of either integrator returns once the
fuel covers the thresholds below `max_stat`. -/
theorem TFCEType.call_returns (pow : value_type → value_type → value_type) (I : TFCEType)
    (max_stat : value_type) (stats acc : List value_type) (hdh : 0 < I.dh)
    (hin : I.inputs_ok max_stat stats acc.length) :
    ∃ N : Nat, ∀ fuel, N ≤ fuel → ∃ enhanced m,
      I.call pow fuel max_stat stats acc = .ok (enhanced, m) := by
  cases I with
  | spatial T =>
    obtain ⟨N, hN⟩ := sweep_count_exists T.dh max_stat hdh
    exact ⟨N, fun fuel hfuel => ⟨_, _, T.spatial_call_eq pow max_stat stats acc N hN hin fuel hfuel⟩⟩
  | connectivity T =>
    obtain ⟨N, hN⟩ := sweep_count_exists T.dh max_stat hdh
    exact ⟨N, fun fuel hfuel =>
      ⟨_, _, T.connectivity_call_eq pow max_stat stats acc N hN hin.1 hin.2.1 hin.2.2 fuel hfuel⟩⟩

theorem foldl_scan_replicate (n k : Nat) :
    ((List.replicate n (0 : value_type)).take k).foldl scan_step 0 = 0 := by
  rcases (foldl_scan_ge ((List.replicate n (0 : value_type)).take k) 0).2.2 with h | h
  · exact h
  · exact List.eq_of_mem_replicate (List.mem_of_mem_take h)

/-! ### The permutation source -/

theorem QueueLoader.calls_succ (k : Nat) :
    ∀ (q : QueueLoader) (item : PermutationItem),
      QueueLoader.calls (k + 1) q item =
        ((QueueLoader.calls k q item).1.call (QueueLoader.calls k q item).2).2 := by
  induction k with
  | zero => intro q item; rfl
  | succ k ih =>
    intro q item
    rw [QueueLoader.calls, ih]
    rfl

theorem QueueLoader.call_lt (q : QueueLoader) (item : PermutationItem)
    (h : q.current_perm < q.permutations.length) :
    q.call item =
      (true, { q with current_perm := q.current_perm + 1, progress := q.progress + 1 },
       { index := q.current_perm, labelling := q.permutations.get ⟨q.current_perm, h⟩ }) := by
  unfold QueueLoader.call
  rw [dif_neg (by omega)]

theorem QueueLoader.call_ge (q : QueueLoader) (item : PermutationItem)
    (h : q.permutations.length ≤ q.current_perm) : q.call item = (false, q, item) := by
  unfold QueueLoader.call
  rw [dif_pos h]

theorem QueueLoader.calls_loader (ps : List (List Nat)) (item : PermutationItem) :
    ∀ k, k ≤ ps.length →
      (QueueLoader.calls k { permutations := ps, current_perm := 0, progress := 0 } item).1 =
        { permutations := ps, current_perm := k, progress := k } := by
  intro k
  induction k with
  | zero => intro _; rfl
  | succ k ih =>
    intro hk
    rw [QueueLoader.calls_succ, QueueLoader.call_lt _ _ (by rw [ih (by omega)]; exact hk)]
    simp only [ih (by omega)]

theorem QueueLoader.calls_exhausted (ps : List (List Nat)) (item : PermutationItem) :
    ∀ k, ps.length ≤ k →
      QueueLoader.calls k { permutations := ps, current_perm := 0, progress := 0 } item =
        QueueLoader.calls ps.length
          { permutations := ps, current_perm := 0, progress := 0 } item := by
  intro k hk
  induction k with
  | zero =>
    have : ps.length = 0 := by omega
    rw [this]
  | succ k ih =>
    by_cases h : ps.length = k + 1
    · rw [h]
    · rw [QueueLoader.calls_succ, ih (by omega),
        QueueLoader.call_ge _ _ (by rw [QueueLoader.calls_loader ps item _ (le_refl _)])]

/-! ### The worker -/

theorem ThreadKernel.negate_and_reset_step_eq (i : Nat) (s t : List value_type)
    (hs : i < s.length) (ht : i < t.length) :
    ThreadKernel.negate_and_reset_step i (s, t) =
      .ok (s.mapIdx (fun p x => if p = i then -x else x),
           t.mapIdx (fun p x => if p = i then 0 else x)) := by
  simp only [ThreadKernel.negate_and_reset_step, read, List.getElem?_eq_getElem hs, write, hs,
    ht, if_true]
  rw [mapIdx_set_eq s i s[i] (fun x => -x) (List.getElem?_eq_getElem hs),
    mapIdx_set_eq t i t[i] (fun _ => 0) (List.getElem?_eq_getElem ht)]

theorem ThreadKernel.negate_and_reset_loop :
    ∀ (k i : Nat) (s t : List value_type), i + k ≤ s.length → i + k ≤ t.length →
      for_loop ThreadKernel.negate_and_reset_step i k (s, t) =
        .ok (s.mapIdx (fun p x => if i ≤ p ∧ p < i + k then -x else x),
             t.mapIdx (fun p x => if i ≤ p ∧ p < i + k then 0 else x)) := by
  intro k
  induction k with
  | zero =>
    intro i s t _ _
    simp only [for_loop]
    rw [mapIdx_id_eq s _ (fun p x _ => if_neg (by omega)),
      mapIdx_id_eq t _ (fun p x _ => if_neg (by omega))]
  | succ k ih =>
    intro i s t hs ht
    simp only [for_loop]
    rw [ThreadKernel.negate_and_reset_step_eq i s t (by omega) (by omega)]
    simp only
    rw [ih (i + 1) _ _ (by rw [List.length_mapIdx]; omega) (by rw [List.length_mapIdx]; omega),
      mapIdx_range_step s (fun _ x => -x) i k, mapIdx_range_step t (fun _ _ => 0) i k]

/-- The loop between the two integrator calls negates every statistic and zeroes the
accumulator, whatever the accumulator held. -/
theorem ThreadKernel.negate_and_reset_eq (stats acc : List value_type)
    (h : acc.length = stats.length) :
    ThreadKernel.negate_and_reset stats acc =
      .ok (stats.map (fun x => -x), List.replicate stats.length 0) := by
  unfold ThreadKernel.negate_and_reset
  rw [ThreadKernel.negate_and_reset_loop stats.length 0 stats acc (by omega) (by omega)]
  congr 2
  · apply List.ext_getElem?
    intro p
    rw [List.getElem?_mapIdx, List.getElem?_map]
    by_cases hp : p < stats.length
    · simp [hp]
    · rw [List.getElem?_eq_none (by omega)]
      simp
  · apply List.ext_getElem?
    intro p
    rw [List.getElem?_mapIdx, List.getElem?_replicate]
    by_cases hp : p < stats.length
    · rw [List.getElem?_eq_getElem (by omega)]
      simp [hp]
    · rw [List.getElem?_eq_none (by omega)]
      simp [hp]

/-- The call of the worker for the item of index 0, when the calculator and both
integrator calls return. -/
theorem ThreadKernel.call_observed (stats_calculator : StatsType)
    (tfce_integrator : value_type → List value_type → List value_type →
      Except Fault (List value_type × value_type))
    (m : Memory) (item : PermutationItem) (stats enh enh2 : List value_type)
    (max_stat min_stat mx mx2 : value_type) (h0 : item.index = 0)
    (hcalc : stats_calculator item.labelling = .ok (stats, max_stat, min_stat))
    (hpos : tfce_integrator max_stat stats (List.replicate stats.length 0) = .ok (enh, mx))
    (hlen : enh.length = stats.length)
    (hneg : tfce_integrator (-min_stat) (stats.map fun x => -x)
      (List.replicate stats.length 0) = .ok (enh2, mx2)) :
    ThreadKernel.call stats_calculator tfce_integrator m item =
      .ok (true,
           { caller := { m.caller with tfce_output_pos := enh }
             kernel := { m.kernel with tvalue_output := stats, tfce_output_neg := enh2 } },
           [Target.tvalue_output, Target.tfce_output_pos, Target.tfce_output_neg]) := by
  unfold ThreadKernel.call
  simp only [hcalc, hpos, h0, if_true, ThreadKernel.negate_and_reset_eq stats enh hlen, hneg]
  rfl

/-- The call of the worker for an item of index at least 1, when the calculator and
both integrator calls return and the slot exists. -/
theorem ThreadKernel.call_permuted (stats_calculator : StatsType)
    (tfce_integrator : value_type → List value_type → List value_type →
      Except Fault (List value_type × value_type))
    (m : Memory) (item : PermutationItem) (stats enh enh2 : List value_type)
    (max_stat min_stat mx mx2 : value_type) (h0 : item.index ≠ 0)
    (hcalc : stats_calculator item.labelling = .ok (stats, max_stat, min_stat))
    (hpos : tfce_integrator max_stat stats (List.replicate stats.length 0) = .ok (enh, mx))
    (hlen : enh.length = stats.length)
    (hneg : tfce_integrator (-min_stat) (stats.map fun x => -x)
      (List.replicate stats.length 0) = .ok (enh2, mx2))
    (hp : item.index - 1 < m.caller.perm_distribution_pos.length)
    (hn : item.index - 1 < m.kernel.perm_distribution_neg.length) :
    ThreadKernel.call stats_calculator tfce_integrator m item =
      .ok (true,
           { caller := { m.caller with
               perm_distribution_pos := m.caller.perm_distribution_pos.set (item.index - 1) mx }
             kernel := { m.kernel with
               perm_distribution_neg := m.kernel.perm_distribution_neg.set (item.index - 1) mx2 } },
           [Target.perm_distribution_pos (item.index - 1),
            Target.perm_distribution_neg (item.index - 1)]) := by
  unfold ThreadKernel.call
  simp only [hcalc, hpos, h0, if_false, write, hp, hn, if_true,
    ThreadKernel.negate_and_reset_eq stats enh hlen, hneg]
  rfl

/-! ### A run -/

/-- C3: for both integrators, when `max_stat ≤ dh` the sweep returns the accumulator
untouched whatever its body is and whatever the fuel (the body is never run, so the
connector or the connectivity map is never consulted), and a call with an all-zero
accumulator returns the all-zero map and the maximum 0.  For the connectivity
integrator the accumulator has an entry for every statistic. -/
theorem TFCEType.call_no_sweep (pow : value_type → value_type → value_type) (I : TFCEType)
    (fuel : Nat) (max_stat : value_type) (stats : List value_type) (n : Nat)
    (hmax : max_stat ≤ I.dh)
    (hlen : ∀ T, I = TFCEType.connectivity T → stats.length ≤ n) :
    (∀ (body : value_type → List value_type → Except Fault (List value_type))
        (acc : List value_type),
        threshold_loop body I.dh max_stat fuel I.dh acc = .ok acc) ∧
    I.call pow fuel max_stat stats (List.replicate n 0) = .ok (List.replicate n 0, 0) := by
  have hstop : ¬ I.dh < max_stat := not_lt.mpr hmax
  refine ⟨fun body acc => threshold_loop_done body _ _ _ _ _ hstop, ?_⟩
  cases I with
  | spatial T =>
    simp only [TFCEType.dh] at hstop
    simp only [TFCEType.call, TFCESpatial.call]
    rw [threshold_loop_done _ _ _ _ _ _ hstop]
    simp only
    rw [max_scan_eq _ _ (le_refl _), foldl_scan_replicate]
  | connectivity T =>
    simp only [TFCEType.dh] at hstop
    simp only [TFCEType.call, TFCEConnectivity.call]
    rw [threshold_loop_done _ _ _ _ _ _ hstop]
    simp only
    rw [max_scan_eq _ _ (by simpa using hlen T rfl), foldl_scan_replicate]

/-- C3, witness: all-zero statistics with `max_stat = 0` and `dh = 1`, for the spatial
and for the connectivity integrator, without fuel. -/
theorem TFCEType.call_no_sweep_witness :
    ((∀ (body : value_type → List value_type → Except Fault (List value_type))
        (acc : List value_type), threshold_loop body 1 0 0 1 acc = .ok acc) ∧
      TFCEType.call nat_pow (.spatial ⟨one_cluster, 1, 1, 2⟩) 0 0 [0, 0]
        (List.replicate 2 0) = .ok (List.replicate 2 0, 0)) ∧
    ((∀ (body : value_type → List value_type → Except Fault (List value_type))
        (acc : List value_type), threshold_loop body 1 0 0 1 acc = .ok acc) ∧
      TFCEType.call nat_pow (.connectivity ⟨[[(1, ⟨1⟩)], [(0, ⟨1⟩)]], 1, 1, 1⟩) 0 0 [0, 0]
        (List.replicate 2 0) = .ok (List.replicate 2 0, 0)) :=
  ⟨TFCEType.call_no_sweep nat_pow (.spatial ⟨one_cluster, 1, 1, 2⟩) 0 0 [0, 0] 2
      (by norm_num [TFCEType.dh]) (fun T h => by cases h),
   TFCEType.call_no_sweep nat_pow (.connectivity ⟨[[(1, ⟨1⟩)], [(0, ⟨1⟩)]], 1, 1, 1⟩) 0 0
      [0, 0] 2 (by norm_num [TFCEType.dh]) (fun T h => by simp)⟩

/-- C4: for both integrators, when `stats` and the accumulator have the same length,
whenever a call returns, the returned value is the maximum of the final enhanced map
floored at 0: it is at least every entry of the map, it is 0 or one of the entries, and
it is 0 exactly when no entry is positive.  For a positive step and usable inputs the
call does return once the fuel covers the sweep. -/
theorem TFCEType.call_max (pow : value_type → value_type → value_type) (I : TFCEType)
    (max_stat : value_type) (stats acc : List value_type)
    (hlen : stats.length = acc.length) :
    (∀ fuel enhanced m, I.call pow fuel max_stat stats acc = .ok (enhanced, m) →
      (∀ x, x ∈ enhanced → x ≤ m) ∧ (m = 0 ∨ m ∈ enhanced) ∧
      (m = 0 ↔ ∀ x, x ∈ enhanced → ¬ 0 < x)) ∧
    (0 < I.dh → I.inputs_ok max_stat stats acc.length →
      ∃ N : Nat, ∀ fuel, N ≤ fuel → ∃ enhanced m,
        I.call pow fuel max_stat stats acc = .ok (enhanced, m)) := by
  refine ⟨fun fuel enhanced m h => ?_, fun hdh hin => I.call_returns pow max_stat stats acc hdh hin⟩
  obtain ⟨hl, hscan⟩ := I.call_ok pow fuel max_stat stats acc enhanced m h
  have hn : I.scan_length acc.length stats.length = enhanced.length := by
    cases I <;> simp [TFCEType.scan_length, hl, hlen]
  rw [hn, max_scan_eq _ _ (le_refl _), List.take_length] at hscan
  simp only [Except.ok.injEq] at hscan
  obtain ⟨h0, hge, hmem⟩ := foldl_scan_ge enhanced 0
  rw [hscan] at h0 hge hmem
  refine ⟨hge, hmem, ⟨fun hm x hx => ?_, fun hall => ?_⟩⟩
  · have := hge x hx
    rw [hm] at this
    exact not_lt.mpr this
  · rcases hmem with hm | hm
    · exact hm
    · exact le_antisymm (not_lt.mp (hall m hm)) h0

/-- C4, witness: the connectivity integrator on two elements joined by weight 1, with an
accumulator that starts at `[0, -20]`: the call returns `[10, -10]` and the maximum 10. -/
theorem TFCEType.call_max_witness :
    TFCEType.call nat_pow (.connectivity ⟨[[(1, ⟨1⟩)], [(0, ⟨1⟩)]], 1, 1, 1⟩) 4 5 [5, 5]
        [0, -20] = .ok ([10, -10], 10) ∧
    ((∀ x, x ∈ [(10 : value_type), -10] → x ≤ 10) ∧
      ((10 : value_type) = 0 ∨ (10 : value_type) ∈ [(10 : value_type), -10]) ∧
      ((10 : value_type) = 0 ↔ ∀ x, x ∈ [(10 : value_type), -10] → ¬ 0 < x)) := by
  have h : TFCEType.call nat_pow (.connectivity ⟨[[(1, ⟨1⟩)], [(0, ⟨1⟩)]], 1, 1, 1⟩) 4 5
      [5, 5] [0, -20] = .ok ([10, -10], 10) := by
    norm_num [TFCEType.call, TFCEConnectivity.call, threshold_loop, TFCEConnectivity.body,
      for_loop, TFCEConnectivity.accumulate, TFCEConnectivity.extent, read, write, max_scan,
      nat_pow]
  exact ⟨h, (TFCEType.call_max nat_pow (.connectivity ⟨[[(1, ⟨1⟩)], [(0, ⟨1⟩)]], 1, 1, 1⟩) 5
    [5, 5] [0, -20] rfl).1 4 [10, -10] 10 h⟩

/-- C5: a freshly constructed `QueueLoader` holding the labellings `ps` answers its
call number `k + 1`, for `k < |ps|`, with `true` and the item of index `k` carrying the
labelling `ps[k]` (the cursor and the progress counter advance to `k + 1`); from call
number `|ps| + 1` on it answers `false` and leaves the loader, hence the cursor, and the
item as they were, the cursor standing at `|ps|`. -/
theorem QueueLoader.call_sequence (generate_permutations : Nat → Nat → List (List Nat))
    (num_perms num_subjects : Nat) (item : PermutationItem) :
    (∀ (k : Nat) (hk : k < (generate_permutations num_perms num_subjects).length),
      QueueLoader.call
          (QueueLoader.calls k
            (QueueLoader.new generate_permutations num_perms num_subjects) item).1
          (QueueLoader.calls k
            (QueueLoader.new generate_permutations num_perms num_subjects) item).2 =
        (true,
         { permutations := generate_permutations num_perms num_subjects
           current_perm := k + 1
           progress := k + 1 },
         { index := k
           labelling := (generate_permutations num_perms num_subjects).get ⟨k, hk⟩ })) ∧
    (∀ k : Nat, (generate_permutations num_perms num_subjects).length ≤ k →
      QueueLoader.call
          (QueueLoader.calls k
            (QueueLoader.new generate_permutations num_perms num_subjects) item).1
          (QueueLoader.calls k
            (QueueLoader.new generate_permutations num_perms num_subjects) item).2 =
        (false,
         (QueueLoader.calls k
            (QueueLoader.new generate_permutations num_perms num_subjects) item).1,
         (QueueLoader.calls k
            (QueueLoader.new generate_permutations num_perms num_subjects) item).2) ∧
      (QueueLoader.calls k
          (QueueLoader.new generate_permutations num_perms num_subjects) item).1.current_perm =
        (generate_permutations num_perms num_subjects).length) := by
  unfold QueueLoader.new
  constructor
  · intro k hk
    have hq := QueueLoader.calls_loader (generate_permutations num_perms num_subjects) item k
      (by omega)
    generalize (QueueLoader.calls k _ item).1 = q at hq ⊢
    subst hq
    rw [QueueLoader.call_lt _ _ hk]
  · intro k hk
    rw [QueueLoader.calls_exhausted _ item k hk]
    have hq := QueueLoader.calls_loader (generate_permutations num_perms num_subjects) item _
      (le_refl _)
    exact ⟨QueueLoader.call_ge _ _ (by rw [hq]), by rw [hq]⟩

/-- C5, witness: a loader holding three labellings hands out the indices 0, 1, 2 with
their labellings and then answers `false` without touching the item. -/
theorem QueueLoader.call_sequence_witness :
    (∀ (k : Nat) (hk : k < [[0, 1], [1, 0], [1, 1]].length),
      QueueLoader.call
          (QueueLoader.calls k
            (QueueLoader.new (fun _ _ => [[0, 1], [1, 0], [1, 1]]) 3 2) ⟨[], 7⟩).1
          (QueueLoader.calls k
            (QueueLoader.new (fun _ _ => [[0, 1], [1, 0], [1, 1]]) 3 2) ⟨[], 7⟩).2 =
        (true,
         { permutations := [[0, 1], [1, 0], [1, 1]], current_perm := k + 1, progress := k + 1 },
         { index := k, labelling := [[0, 1], [1, 0], [1, 1]].get ⟨k, hk⟩ })) ∧
    QueueLoader.calls 3 (QueueLoader.new (fun _ _ => [[0, 1], [1, 0], [1, 1]]) 3 2) ⟨[], 7⟩ =
      (⟨[[0, 1], [1, 0], [1, 1]], 3, 3⟩, ⟨[1, 1], 2⟩) ∧
    QueueLoader.call ⟨[[0, 1], [1, 0], [1, 1]], 3, 3⟩ ⟨[1, 1], 2⟩ =
      (false, ⟨[[0, 1], [1, 0], [1, 1]], 3, 3⟩, ⟨[1, 1], 2⟩) :=
  ⟨(QueueLoader.call_sequence (fun _ _ => [[0, 1], [1, 0], [1, 1]]) 3 2 ⟨[], 7⟩).1,
   by decide, by decide⟩

/-- C6: positive pass of `ThreadKernel::operator()`.  When the calculator returns
`(stats, max_stat, min_stat)`, both integrator calls return and, for an index of at
least 1, the slot `index - 1` exists, the call returns `true`; the positive integrator
call is the one on `stats` with bound `max_stat` and an all-zero accumulator of length
`|stats|`, and afterwards the caller's `tfce_output_pos` is its enhanced map if the index
is 0, and slot `index - 1` of the caller's `perm_distribution_pos` is its maximum
otherwise. -/
theorem ThreadKernel.call_positive (pow : value_type → value_type → value_type)
    (stats_calculator : StatsType) (I : TFCEType) (fuel : Nat) (m : Memory)
    (item : PermutationItem) (stats enh enh2 : List value_type)
    (max_stat min_stat mx mx2 : value_type)
    (hcalc : stats_calculator item.labelling = .ok (stats, max_stat, min_stat))
    (hpos : I.call pow fuel max_stat stats (List.replicate stats.length 0) = .ok (enh, mx))
    (hneg : I.call pow fuel (-min_stat) (stats.map fun x => -x)
      (List.replicate stats.length 0) = .ok (enh2, mx2))
    (hslot : item.index ≠ 0 →
      item.index - 1 < m.caller.perm_distribution_pos.length ∧
      item.index - 1 < m.kernel.perm_distribution_neg.length) :
    ∃ m1 w, ThreadKernel.call stats_calculator (I.call pow fuel) m item = .ok (true, m1, w) ∧
      (item.index = 0 → m1.caller.tfce_output_pos = enh) ∧
      (item.index ≠ 0 → m1.caller.perm_distribution_pos[item.index - 1]? = some mx) := by
  have hlen : enh.length = stats.length := by
    simpa using (I.call_ok pow fuel max_stat stats _ enh mx hpos).1
  by_cases h0 : item.index = 0
  · exact ⟨_, _, ThreadKernel.call_observed stats_calculator (I.call pow fuel) m item stats enh
      enh2 max_stat min_stat mx mx2 h0 hcalc hpos hlen hneg, fun _ => rfl,
      fun h => absurd h0 h⟩
  · obtain ⟨hp, hn⟩ := hslot h0
    exact ⟨_, _, ThreadKernel.call_permuted stats_calculator (I.call pow fuel) m item stats enh
      enh2 max_stat min_stat mx mx2 h0 hcalc hpos hlen hneg hp hn, fun h => absurd h h0,
      fun _ => by simp [hp]⟩

/-- C6, witness: the item of index 1 with statistics `[5, 5]` under the connectivity
integrator on two joined elements: slot 0 of the caller's `perm_distribution_pos`
receives the maximum 10. -/
theorem ThreadKernel.call_positive_witness :
    ∃ m1 w,
      ThreadKernel.call (fun _ => .ok ([5, 5], 5, 5))
          (TFCEType.call nat_pow (.connectivity ⟨[[(1, ⟨1⟩)], [(0, ⟨1⟩)]], 1, 1, 1⟩) 4)
          (ThreadKernel.new ⟨[0, 0], [0, 0], [0, 0], [0, 0], [0, 0]⟩) ⟨[1, 0], 1⟩ =
        .ok (true, m1, w) ∧
      ((1 : Nat) = 0 → m1.caller.tfce_output_pos = [10, 10]) ∧
      ((1 : Nat) ≠ 0 → m1.caller.perm_distribution_pos[1 - 1]? = some 10) :=
  ThreadKernel.call_positive nat_pow (fun _ => .ok ([5, 5], 5, 5))
    (.connectivity ⟨[[(1, ⟨1⟩)], [(0, ⟨1⟩)]], 1, 1, 1⟩) 4
    (ThreadKernel.new ⟨[0, 0], [0, 0], [0, 0], [0, 0], [0, 0]⟩) ⟨[1, 0], 1⟩
    [5, 5] [10, 10] [0, 0] 5 5 10 0 rfl
    (by norm_num [TFCEType.call, TFCEConnectivity.call, threshold_loop,
      TFCEConnectivity.body, for_loop, TFCEConnectivity.accumulate, TFCEConnectivity.extent,
      read, write, max_scan, nat_pow, List.replicate])
    (by norm_num [TFCEType.call, TFCEConnectivity.call, threshold_loop,
      TFCEConnectivity.body, for_loop, TFCEConnectivity.accumulate, TFCEConnectivity.extent,
      read, write, max_scan, nat_pow, List.replicate])
    (fun _ => by simp [ThreadKernel.new])

/-- C7, the code at a failing input: for the item of index 0 with statistics `[-2, -2]`
the negative pass computes the enhanced map `[1, 1]`, which lands in the member
`tfce_output_neg` of the kernel; the buffer the caller passed to the constructor still
holds `[0, 0]`. -/
theorem ThreadKernel.call_negative_held_by_value :
    ThreadKernel.call (fun _ => .ok ([-2, -2], -2, -2))
        (TFCEType.call nat_pow (.connectivity ⟨[[(1, ⟨1⟩)], [(0, ⟨1⟩)]], 1, 1, 1⟩) 1)
        (ThreadKernel.new ⟨[0], [0], [0, 0], [0, 0], [0, 0]⟩) ⟨[0, 1], 0⟩ =
      .ok (true,
           { caller := ⟨[0], [0], [0, 0], [0, 0], [0, 0]⟩
             kernel := { perm_distribution_neg := [0]
                         tfce_output_neg := [1, 1]
                         tvalue_output := [-2, -2] } },
           [Target.tvalue_output, Target.tfce_output_pos, Target.tfce_output_neg]) ∧
    TFCEType.call nat_pow (.connectivity ⟨[[(1, ⟨1⟩)], [(0, ⟨1⟩)]], 1, 1, 1⟩) 1 (- -2)
        ([-2, -2].map fun x => -x) (List.replicate 2 0) = .ok ([1, 1], 1) := by
  have hneg : TFCEType.call nat_pow (.connectivity ⟨[[(1, ⟨1⟩)], [(0, ⟨1⟩)]], 1, 1, 1⟩) 1
      (- -2) ([-2, -2].map fun x => -x) (List.replicate [(-2 : value_type), -2].length 0) =
      .ok ([1, 1], 1) := by
    norm_num [TFCEType.call, TFCEConnectivity.call, threshold_loop,
      TFCEConnectivity.body, for_loop, TFCEConnectivity.accumulate, TFCEConnectivity.extent,
      read, write, max_scan, nat_pow, List.replicate]
  refine ⟨?_, hneg⟩
  rw [ThreadKernel.call_observed _ _ _ _ [-2, -2] [0, 0] [1, 1] (-2) (-2) 0 1 rfl rfl
    (by norm_num [TFCEType.call, TFCEConnectivity.call, threshold_loop, max_scan, for_loop,
      read, List.replicate]) rfl hneg]
  rfl

/-- C8, the code at a failing input: for the item of index 0 with raw statistics
`[3, 4]` the statistics land in the member `tvalue_output` of the kernel; the buffer the
caller passed to the constructor still holds `[0, 0]`. -/
theorem ThreadKernel.call_tvalue_held_by_value :
    ThreadKernel.call (fun _ => .ok ([3, 4], 4, 3))
        (TFCEType.call nat_pow (.connectivity ⟨[[(1, ⟨1⟩)], [(0, ⟨1⟩)]], 5, 1, 1⟩) 0)
        (ThreadKernel.new ⟨[0], [0], [7, 7], [7, 7], [0, 0]⟩) ⟨[0, 1], 0⟩ =
      .ok (true,
           { caller := ⟨[0], [0], [0, 0], [7, 7], [0, 0]⟩
             kernel := { perm_distribution_neg := [0]
                         tfce_output_neg := [0, 0]
                         tvalue_output := [3, 4] } },
           [Target.tvalue_output, Target.tfce_output_pos, Target.tfce_output_neg]) := by
  rw [ThreadKernel.call_observed _ _ _ _ [3, 4] [0, 0] [0, 0] 4 3 0 0 rfl rfl
    (by norm_num [TFCEType.call, TFCEConnectivity.call, threshold_loop, max_scan, for_loop,
      read, List.replicate]) rfl
    (by norm_num [TFCEType.call, TFCEConnectivity.call, threshold_loop, max_scan, for_loop,
      read, List.replicate])]
  rfl

/-- C9: sign-flip isolation in `ThreadKernel::operator()`.  The loop between the two
integrator calls hands on the negated statistics and an accumulator that is 0 at every
position, whatever accumulator of length `|stats|` the positive pass left.  Hence, when
the calculator and the integrator calls return, what the negative pass stores (the
enhanced map in `tfce_output_neg` for index 0, the maximum in slot `index - 1` of
`perm_distribution_neg` otherwise) is the result of the integrator run alone on the
negated statistics with bound `-min_stat` and a fresh all-zero accumulator. -/
theorem ThreadKernel.call_negative_isolated (pow : value_type → value_type → value_type)
    (stats_calculator : StatsType) (I : TFCEType) (fuel : Nat) (m : Memory)
    (item : PermutationItem) (stats enh enh2 : List value_type)
    (max_stat min_stat mx mx2 : value_type)
    (hcalc : stats_calculator item.labelling = .ok (stats, max_stat, min_stat))
    (hpos : I.call pow fuel max_stat stats (List.replicate stats.length 0) = .ok (enh, mx))
    (hneg : I.call pow fuel (-min_stat) (stats.map fun x => -x)
      (List.replicate stats.length 0) = .ok (enh2, mx2))
    (hslot : item.index ≠ 0 →
      item.index - 1 < m.caller.perm_distribution_pos.length ∧
      item.index - 1 < m.kernel.perm_distribution_neg.length) :
    (∀ acc : List value_type, acc.length = stats.length →
      ThreadKernel.negate_and_reset stats acc =
        .ok (stats.map (fun x => -x), List.replicate stats.length 0)) ∧
    ThreadKernel.negate_and_reset stats enh =
      .ok (stats.map (fun x => -x), List.replicate stats.length 0) ∧
    ∃ m1 w, ThreadKernel.call stats_calculator (I.call pow fuel) m item = .ok (true, m1, w) ∧
      (item.index = 0 → m1.kernel.tfce_output_neg = enh2) ∧
      (item.index ≠ 0 → m1.kernel.perm_distribution_neg[item.index - 1]? = some mx2) := by
  have hlen : enh.length = stats.length := by
    simpa using (I.call_ok pow fuel max_stat stats _ enh mx hpos).1
  refine ⟨fun acc hacc => ThreadKernel.negate_and_reset_eq stats acc hacc,
    ThreadKernel.negate_and_reset_eq stats enh hlen, ?_⟩
  by_cases h0 : item.index = 0
  · exact ⟨_, _, ThreadKernel.call_observed stats_calculator (I.call pow fuel) m item stats enh
      enh2 max_stat min_stat mx mx2 h0 hcalc hpos hlen hneg, fun _ => rfl,
      fun h => absurd h0 h⟩
  · obtain ⟨hp, hn⟩ := hslot h0
    exact ⟨_, _, ThreadKernel.call_permuted stats_calculator (I.call pow fuel) m item stats enh
      enh2 max_stat min_stat mx mx2 h0 hcalc hpos hlen hneg hp hn, fun h => absurd h h0,
      fun _ => by simp [hn]⟩

/-- C9, witness: the item of index 0 with statistics `[5, -5]` under the connectivity
integrator on two joined elements.  The positive pass leaves `[0, 10]`; the negative
pass stores `[10, 0]`, the result of the integrator alone on `[-5, 5]` with bound 5. -/
theorem ThreadKernel.call_negative_isolated_witness :
    (∀ acc : List value_type, acc.length = [(5 : value_type), -5].length →
      ThreadKernel.negate_and_reset [5, -5] acc =
        .ok ([(5 : value_type), -5].map (fun x => -x),
             List.replicate [(5 : value_type), -5].length 0)) ∧
    ThreadKernel.negate_and_reset [5, -5] [0, 10] =
      .ok ([(5 : value_type), -5].map (fun x => -x),
           List.replicate [(5 : value_type), -5].length 0) ∧
    ∃ m1 w,
      ThreadKernel.call (fun _ => .ok ([5, -5], 5, -5))
          (TFCEType.call nat_pow (.connectivity ⟨[[(1, ⟨1⟩)], [(0, ⟨1⟩)]], 1, 1, 1⟩) 4)
          (ThreadKernel.new ⟨[0, 0], [0, 0], [0, 0], [0, 0], [0, 0]⟩) ⟨[0, 1], 0⟩ =
        .ok (true, m1, w) ∧
      ((0 : Nat) = 0 → m1.kernel.tfce_output_neg = [10, 0]) ∧
      ((0 : Nat) ≠ 0 → m1.kernel.perm_distribution_neg[0 - 1]? = some 10) :=
  ThreadKernel.call_negative_isolated nat_pow (fun _ => .ok ([5, -5], 5, -5))
    (.connectivity ⟨[[(1, ⟨1⟩)], [(0, ⟨1⟩)]], 1, 1, 1⟩) 4
    (ThreadKernel.new ⟨[0, 0], [0, 0], [0, 0], [0, 0], [0, 0]⟩) ⟨[0, 1], 0⟩
    [5, -5] [0, 10] [10, 0] 5 (-5) 10 10 rfl
    (by norm_num [TFCEType.call, TFCEConnectivity.call, threshold_loop,
      TFCEConnectivity.body, for_loop, TFCEConnectivity.accumulate, TFCEConnectivity.extent,
      read, write, max_scan, nat_pow, List.replicate])
    (by norm_num [TFCEType.call, TFCEConnectivity.call, threshold_loop,
      TFCEConnectivity.body, for_loop, TFCEConnectivity.accumulate, TFCEConnectivity.extent,
      read, write, max_scan, nat_pow, List.replicate])
    (fun h => absurd rfl h)

/-- The two embeddings of `ThreadKernel::operator()` agree: `call` is `exec` with the
memory dropped when the call fails. -/
theorem ThreadKernel.call_eq_exec (stats_calculator : StatsType)
    (tfce_integrator : value_type → List value_type → List value_type →
      Except Fault (List value_type × value_type))
    (m : Memory) (item : PermutationItem) :
    ThreadKernel.call stats_calculator tfce_integrator m item =
      match (ThreadKernel.exec stats_calculator tfce_integrator m item).2.2 with
      | .ok b =>
        .ok (b, (ThreadKernel.exec stats_calculator tfce_integrator m item).1,
          (ThreadKernel.exec stats_calculator tfce_integrator m item).2.1)
      | .error e => .error e := by
  unfold ThreadKernel.call ThreadKernel.exec
  cases stats_calculator item.labelling with
  | error e => rfl
  | ok r =>
    obtain ⟨stats, max_stat, min_stat⟩ := r
    simp only
    cases tfce_integrator max_stat stats (List.replicate stats.length 0) with
    | error e => rfl
    | ok r1 =>
      obtain ⟨enh, mx⟩ := r1
      simp only
      by_cases h0 : item.index = 0
      · simp only [h0, if_true]
        cases ThreadKernel.negate_and_reset stats enh with
        | error e => rfl
        | ok r2 =>
          obtain ⟨stats1, acc1⟩ := r2
          simp only
          cases tfce_integrator (-min_stat) stats1 acc1 with
          | error e => rfl
          | ok r3 => rfl
      · simp only [h0, if_false]
        cases write m.caller.perm_distribution_pos (item.index - 1) mx with
        | error e => rfl
        | ok v =>
          simp only
          cases ThreadKernel.negate_and_reset stats enh with
          | error e => rfl
          | ok r2 =>
            obtain ⟨stats1, acc1⟩ := r2
            simp only
            cases tfce_integrator (-min_stat) stats1 acc1 with
            | error e => rfl
            | ok r3 =>
              obtain ⟨enh2, mx2⟩ := r3
              simp only
              cases write m.kernel.perm_distribution_neg (item.index - 1) mx2 with
              | error e => rfl
              | ok v2 => rfl

theorem write_frame {α : Type} (v v1 : List α) (i : Nat) (x : α) (h : write v i x = .ok v1) :
    ∀ j, j ≠ i → v1[j]? = v[j]? := by
  unfold write at h
  split_ifs at h
  simp only [Except.ok.injEq] at h
  intro j hj
  rw [← h, List.getElem?_set_ne (fun e => hj e.symm)]

/-- What `ThreadKernel::operator()` leaves alone, whether it returns or fails. -/
theorem ThreadKernel.exec_unchanged (stats_calculator : StatsType)
    (tfce_integrator : value_type → List value_type → List value_type →
      Except Fault (List value_type × value_type))
    (m : Memory) (item : PermutationItem) :
    (ThreadKernel.exec stats_calculator tfce_integrator m item).1.caller.perm_distribution_neg =
        m.caller.perm_distribution_neg ∧
    (ThreadKernel.exec stats_calculator tfce_integrator m item).1.caller.tfce_output_neg =
        m.caller.tfce_output_neg ∧
    (ThreadKernel.exec stats_calculator tfce_integrator m item).1.caller.tvalue_output =
        m.caller.tvalue_output ∧
    (item.index ≠ 0 →
      (ThreadKernel.exec stats_calculator tfce_integrator m item).1.caller.tfce_output_pos =
          m.caller.tfce_output_pos ∧
      (ThreadKernel.exec stats_calculator tfce_integrator m item).1.kernel.tfce_output_neg =
          m.kernel.tfce_output_neg ∧
      (ThreadKernel.exec stats_calculator tfce_integrator m item).1.kernel.tvalue_output =
          m.kernel.tvalue_output ∧
      (∀ j, j ≠ item.index - 1 →
        (ThreadKernel.exec stats_calculator tfce_integrator m
            item).1.caller.perm_distribution_pos[j]? =
          m.caller.perm_distribution_pos[j]?) ∧
      (∀ j, j ≠ item.index - 1 →
        (ThreadKernel.exec stats_calculator tfce_integrator m
            item).1.kernel.perm_distribution_neg[j]? =
          m.kernel.perm_distribution_neg[j]?)) ∧
    (item.index = 0 →
      (ThreadKernel.exec stats_calculator tfce_integrator m item).1.caller.perm_distribution_pos =
          m.caller.perm_distribution_pos ∧
      (ThreadKernel.exec stats_calculator tfce_integrator m item).1.kernel.perm_distribution_neg =
          m.kernel.perm_distribution_neg) := by
  unfold ThreadKernel.exec
  cases stats_calculator item.labelling with
  | error e => simp
  | ok r =>
    obtain ⟨stats, max_stat, min_stat⟩ := r
    simp only
    cases tfce_integrator max_stat stats (List.replicate stats.length 0) with
    | error e =>
      by_cases h0 : item.index = 0 <;> simp [h0]
    | ok r1 =>
      obtain ⟨enh, mx⟩ := r1
      simp only
      by_cases h0 : item.index = 0
      · simp only [h0, if_true]
        cases ThreadKernel.negate_and_reset stats enh with
        | error e => simp
        | ok r2 =>
          obtain ⟨stats1, acc1⟩ := r2
          simp only
          cases tfce_integrator (-min_stat) stats1 acc1 with
          | error e => simp
          | ok r3 => simp
      · simp only [h0, if_false]
        cases hw : write m.caller.perm_distribution_pos (item.index - 1) mx with
        | error e => simp
        | ok v =>
          have hv := write_frame _ _ _ _ hw
          simp only
          cases ThreadKernel.negate_and_reset stats enh with
          | error e => simpa using fun _ => hv
          | ok r2 =>
            obtain ⟨stats1, acc1⟩ := r2
            simp only
            cases tfce_integrator (-min_stat) stats1 acc1 with
            | error e => simpa using fun _ => hv
            | ok r3 =>
              obtain ⟨enh2, mx2⟩ := r3
              simp only
              cases hw2 : write m.kernel.perm_distribution_neg (item.index - 1) mx2 with
              | error e => simpa using fun _ => hv
              | ok v2 =>
                have hv2 := write_frame _ _ _ _ hw2
                simp only [ne_eq, not_false_eq_true, true_and, false_implies, and_true,
                  forall_true_left]
                exact fun _ => ⟨hv, hv2⟩

/-! ## Claims, continued -/

/-- C12: failure of the calculator.  When the calculator fails on the labelling of the
item with the fault `e`, `ThreadKernel::operator()` ends in that same failure (it does
not return `true`), and at that point no member has been assigned and the memory, the
caller's outputs and the kernel's members, is as it was before the call. -/
theorem ThreadKernel.call_stats_failure (stats_calculator : StatsType)
    (tfce_integrator : value_type → List value_type → List value_type →
      Except Fault (List value_type × value_type))
    (m : Memory) (item : PermutationItem) (e : Fault)
    (h : stats_calculator item.labelling = .error e) :
    ThreadKernel.call stats_calculator tfce_integrator m item = .error e ∧
    ThreadKernel.exec stats_calculator tfce_integrator m item = (m, [], .error e) := by
  constructor
  · unfold ThreadKernel.call
    rw [h]
  · unfold ThreadKernel.exec
    rw [h]

/-- C12, witness: a calculator that fails on every labelling, for the item of index 0. -/
theorem ThreadKernel.call_stats_failure_witness :
    ThreadKernel.call (fun _ => .error .stats_failure)
        (TFCEType.call nat_pow (.connectivity ⟨[[(1, ⟨1⟩)], [(0, ⟨1⟩)]], 1, 1, 1⟩) 4)
        (ThreadKernel.new ⟨[1, 2], [3, 4], [5, 6], [7, 8], [9, 10]⟩) ⟨[0, 1], 0⟩ =
      .error .stats_failure ∧
    ThreadKernel.exec (fun _ => .error .stats_failure)
        (TFCEType.call nat_pow (.connectivity ⟨[[(1, ⟨1⟩)], [(0, ⟨1⟩)]], 1, 1, 1⟩) 4)
        (ThreadKernel.new ⟨[1, 2], [3, 4], [5, 6], [7, 8], [9, 10]⟩) ⟨[0, 1], 0⟩ =
      (ThreadKernel.new ⟨[1, 2], [3, 4], [5, 6], [7, 8], [9, 10]⟩, [], .error .stats_failure) :=
  ThreadKernel.call_stats_failure (fun _ => .error .stats_failure)
    (TFCEType.call nat_pow (.connectivity ⟨[[(1, ⟨1⟩)], [(0, ⟨1⟩)]], 1, 1, 1⟩) 4)
    (ThreadKernel.new ⟨[1, 2], [3, 4], [5, 6], [7, 8], [9, 10]⟩) ⟨[0, 1], 0⟩ .stats_failure rfl

/-- C17: frame of `ThreadKernel::operator()`.  Whether the call returns or fails, the
memory at its end differs from the memory before as follows.  For an item of index
`k ≥ 1`: the observed maps and the observed statistic are unchanged and so is every slot
of `perm_distribution_pos` and `perm_distribution_neg` other than slot `k - 1`.  For
the item of index 0: no slot of `perm_distribution_pos` or `perm_distribution_neg` is
changed.  The memory a returning call hands back is that memory. -/
theorem ThreadKernel.call_frame (stats_calculator : StatsType)
    (tfce_integrator : value_type → List value_type → List value_type →
      Except Fault (List value_type × value_type))
    (m : Memory) (item : PermutationItem) :
    (∀ b m1 w, ThreadKernel.call stats_calculator tfce_integrator m item = .ok (b, m1, w) →
      m1 = (ThreadKernel.exec stats_calculator tfce_integrator m item).1) ∧
    (item.index ≠ 0 →
      ThreadKernel.frame_permuted m
        (ThreadKernel.exec stats_calculator tfce_integrator m item).1 item.index) ∧
    (item.index = 0 →
      ThreadKernel.frame_observed m
        (ThreadKernel.exec stats_calculator tfce_integrator m item).1) := by
  obtain ⟨h1, h2, h3, h4, h5⟩ :=
    ThreadKernel.exec_unchanged stats_calculator tfce_integrator m item
  refine ⟨fun b m1 w h => ?_, fun h0 => ?_, fun h0 => ?_⟩
  · rw [ThreadKernel.call_eq_exec] at h
    split at h
    · simp only [Except.ok.injEq, Prod.mk.injEq] at h
      exact h.2.1.symm
    · cases h
  · obtain ⟨a1, a2, a3, a4, a5⟩ := h4 h0
    exact ⟨a1, h2, h3, a2, a3, a4, fun j _ => by rw [h1], a5⟩
  · obtain ⟨a1, a2⟩ := h5 h0
    exact ⟨a1, h1, a2⟩

/-! ### The order of the items -/

/-- A returning call of the worker computed its values without looking at the outputs,
found its slots, and stored the values. -/
theorem ThreadKernel.call_ok_inv (stats_calculator : StatsType)
    (tfce_integrator : value_type → List value_type → List value_type →
      Except Fault (List value_type × value_type))
    (m m1 : Memory) (item : PermutationItem) (b : Bool) (w : List Target)
    (h : ThreadKernel.call stats_calculator tfce_integrator m item = .ok (b, m1, w)) :
    ∃ stats enh enh2 mx mx2,
      ThreadKernel.computes stats_calculator tfce_integrator item stats enh enh2 mx mx2 ∧
      (item.index ≠ 0 →
        item.index - 1 < m.caller.perm_distribution_pos.length ∧
        item.index - 1 < m.kernel.perm_distribution_neg.length) ∧
      b = true ∧ m1 = ThreadKernel.store m item.index stats enh enh2 mx mx2 ∧
      w = ThreadKernel.targets item.index := by
  unfold ThreadKernel.call at h
  cases hc : stats_calculator item.labelling with
  | error e => rw [hc] at h; cases h
  | ok r =>
    obtain ⟨stats, max_stat, min_stat⟩ := r
    rw [hc] at h
    simp only at h
    cases hp : tfce_integrator max_stat stats (List.replicate stats.length 0) with
    | error e => rw [hp] at h; cases h
    | ok r1 =>
      obtain ⟨enh, mx⟩ := r1
      rw [hp] at h
      simp only at h
      by_cases h0 : item.index = 0
      · simp only [h0, if_true] at h
        cases hr : ThreadKernel.negate_and_reset stats enh with
        | error e => rw [hr] at h; cases h
        | ok r2 =>
          obtain ⟨stats1, acc1⟩ := r2
          rw [hr] at h
          simp only at h
          cases hn : tfce_integrator (-min_stat) stats1 acc1 with
          | error e => rw [hn] at h; cases h
          | ok r3 =>
            obtain ⟨enh2, mx2⟩ := r3
            rw [hn] at h
            simp only [Except.ok.injEq, Prod.mk.injEq] at h
            obtain ⟨hb, hm, hw⟩ := h
            refine ⟨stats, enh, enh2, mx, mx2, ⟨max_stat, min_stat, stats1, acc1, hc, hp, hr, hn⟩,
              fun hne => absurd h0 hne, hb.symm, ?_, ?_⟩
            · rw [← hm]
              simp [ThreadKernel.store, h0]
            · rw [← hw]
              simp [ThreadKernel.targets, h0]
      · simp only [h0, if_false] at h
        by_cases hs : item.index - 1 < m.caller.perm_distribution_pos.length
        · simp only [write, hs, if_true] at h
          cases hr : ThreadKernel.negate_and_reset stats enh with
          | error e => rw [hr] at h; cases h
          | ok r2 =>
            obtain ⟨stats1, acc1⟩ := r2
            rw [hr] at h
            simp only at h
            cases hn : tfce_integrator (-min_stat) stats1 acc1 with
            | error e => rw [hn] at h; cases h
            | ok r3 =>
              obtain ⟨enh2, mx2⟩ := r3
              rw [hn] at h
              simp only at h
              by_cases hs2 : item.index - 1 < m.kernel.perm_distribution_neg.length
              · simp only [hs2, if_true, Except.ok.injEq, Prod.mk.injEq] at h
                obtain ⟨hb, hm, hw⟩ := h
                refine ⟨stats, enh, enh2, mx, mx2,
                  ⟨max_stat, min_stat, stats1, acc1, hc, hp, hr, hn⟩,
                  fun _ => ⟨hs, hs2⟩, hb.symm, ?_, ?_⟩
                · rw [← hm]
                  simp [ThreadKernel.store, h0]
                · rw [← hw]
                  simp [ThreadKernel.targets, h0]
              · simp only [hs2, if_false] at h
                cases h
        · simp only [write, hs, if_false] at h
          cases h

/-- A call of the worker whose computation returns and whose slots exist returns
`true`, having stored the values. -/
theorem ThreadKernel.call_ok_intro (stats_calculator : StatsType)
    (tfce_integrator : value_type → List value_type → List value_type →
      Except Fault (List value_type × value_type))
    (m : Memory) (item : PermutationItem) (stats enh enh2 : List value_type)
    (mx mx2 : value_type)
    (hc : ThreadKernel.computes stats_calculator tfce_integrator item stats enh enh2 mx mx2)
    (hs : item.index ≠ 0 →
      item.index - 1 < m.caller.perm_distribution_pos.length ∧
      item.index - 1 < m.kernel.perm_distribution_neg.length) :
    ThreadKernel.call stats_calculator tfce_integrator m item =
      .ok (true, ThreadKernel.store m item.index stats enh enh2 mx mx2,
        ThreadKernel.targets item.index) := by
  obtain ⟨max_stat, min_stat, stats1, acc1, hcalc, hp, hr, hn⟩ := hc
  unfold ThreadKernel.call
  by_cases h0 : item.index = 0
  · simp only [hcalc, hp, hr, hn, h0, if_true, ThreadKernel.store, ThreadKernel.targets]
    rfl
  · obtain ⟨hs1, hs2⟩ := hs h0
    simp only [hcalc, hp, hr, hn, h0, if_false, write, hs1, hs2, if_true, ThreadKernel.store,
      ThreadKernel.targets]
    rfl

theorem ThreadKernel.store_lengths (m : Memory) (k : Nat) (stats enh enh2 : List value_type)
    (mx mx2 : value_type) :
    (ThreadKernel.store m k stats enh enh2 mx mx2).caller.perm_distribution_pos.length =
        m.caller.perm_distribution_pos.length ∧
    (ThreadKernel.store m k stats enh enh2 mx mx2).kernel.perm_distribution_neg.length =
        m.kernel.perm_distribution_neg.length := by
  unfold ThreadKernel.store
  split_ifs <;> simp

/-- The assignments of two items of different index can be made in either order. -/
theorem ThreadKernel.store_comm (m : Memory) (a b : Nat) (hab : a ≠ b)
    (sa ea ea2 sb eb eb2 : List value_type) (xa xa2 xb xb2 : value_type) :
    ThreadKernel.store (ThreadKernel.store m a sa ea ea2 xa xa2) b sb eb eb2 xb xb2 =
      ThreadKernel.store (ThreadKernel.store m b sb eb eb2 xb xb2) a sa ea ea2 xa xa2 := by
  unfold ThreadKernel.store
  by_cases ha : a = 0
  · have hb : b ≠ 0 := fun h => hab (by omega)
    simp [ha, hb]
  · by_cases hb : b = 0
    · simp [ha, hb]
    · have hne : a - 1 ≠ b - 1 := by omega
      simp only [ha, hb, if_false]
      rw [List.set_comm _ _ _ hne, List.set_comm _ _ _ hne]

theorem ThreadKernel.run_cons_ok (stats_calculator : StatsType)
    (tfce_integrator : value_type → List value_type → List value_type →
      Except Fault (List value_type × value_type))
    (m m2 : Memory) (x : PermutationItem) (l : List PermutationItem) :
    (∃ log, ThreadKernel.run stats_calculator tfce_integrator m (x :: l) = .ok (m2, log)) ↔
      ∃ b m1 w, ThreadKernel.call stats_calculator tfce_integrator m x = .ok (b, m1, w) ∧
        ∃ log, ThreadKernel.run stats_calculator tfce_integrator m1 l = .ok (m2, log) := by
  constructor
  · rintro ⟨log, h⟩
    simp only [ThreadKernel.run] at h
    cases hc : ThreadKernel.call stats_calculator tfce_integrator m x with
    | error e => rw [hc] at h; cases h
    | ok r =>
      obtain ⟨b, m1, w⟩ := r
      rw [hc] at h
      simp only at h
      cases hr : ThreadKernel.run stats_calculator tfce_integrator m1 l with
      | error e => rw [hr] at h; cases h
      | ok r1 =>
        obtain ⟨m3, log1⟩ := r1
        rw [hr] at h
        simp only [Except.ok.injEq, Prod.mk.injEq] at h
        exact ⟨b, m1, w, rfl, log1, by rw [hr, h.1]⟩
  · rintro ⟨b, m1, w, hc, log, hr⟩
    exact ⟨w.map (fun t => (x.index, t)) ++ log, by simp only [ThreadKernel.run, hc, hr]⟩

/-- Two calls of the worker on items of different index can be made in either order:
the memory after both is the same. -/
theorem ThreadKernel.call_swap (stats_calculator : StatsType)
    (tfce_integrator : value_type → List value_type → List value_type →
      Except Fault (List value_type × value_type))
    (m m1 m2 : Memory) (x y : PermutationItem) (hxy : x.index ≠ y.index)
    (b1 b2 : Bool) (w1 w2 : List Target)
    (h1 : ThreadKernel.call stats_calculator tfce_integrator m x = .ok (b1, m1, w1))
    (h2 : ThreadKernel.call stats_calculator tfce_integrator m1 y = .ok (b2, m2, w2)) :
    ∃ m3, ThreadKernel.call stats_calculator tfce_integrator m y = .ok (b2, m3, w2) ∧
      ThreadKernel.call stats_calculator tfce_integrator m3 x = .ok (b1, m2, w1) := by
  obtain ⟨sx, ex, ex2, xx, xx2, hcx, hsx, rfl, rfl, rfl⟩ :=
    ThreadKernel.call_ok_inv _ _ _ _ _ _ _ h1
  obtain ⟨sy, ey, ey2, xy, xy2, hcy, hsy, rfl, rfl, rfl⟩ :=
    ThreadKernel.call_ok_inv _ _ _ _ _ _ _ h2
  obtain ⟨l1, l2⟩ := ThreadKernel.store_lengths m x.index sx ex ex2 xx xx2
  obtain ⟨l3, l4⟩ := ThreadKernel.store_lengths m y.index sy ey ey2 xy xy2
  refine ⟨ThreadKernel.store m y.index sy ey ey2 xy xy2, ?_, ?_⟩
  · exact ThreadKernel.call_ok_intro _ _ m y sy ey ey2 xy xy2 hcy
      (fun h => by rw [← l1, ← l2]; exact hsy h)
  · rw [ThreadKernel.store_comm m x.index y.index hxy]
    exact ThreadKernel.call_ok_intro _ _ _ x sx ex ex2 xx xx2 hcx
      (fun h => by rw [l3, l4]; exact hsx h)

/-- A run over a list of items of pairwise different index returns the same memory as
the run over any rearrangement of the list, if it returns. -/
theorem ThreadKernel.run_perm (stats_calculator : StatsType)
    (tfce_integrator : value_type → List value_type → List value_type →
      Except Fault (List value_type × value_type))
    (l1 l2 : List PermutationItem) (hp : l1.Perm l2) :
    (l1.map fun it => it.index).Nodup → ∀ m m2 : Memory,
      (∃ log, ThreadKernel.run stats_calculator tfce_integrator m l1 = .ok (m2, log)) →
      ∃ log, ThreadKernel.run stats_calculator tfce_integrator m l2 = .ok (m2, log) := by
  induction hp with
  | nil => intro _ m m2 h; exact h
  | cons x _ ih =>
    intro hnd m m2 h
    rw [ThreadKernel.run_cons_ok] at h ⊢
    obtain ⟨b, m1, w, hc, hr⟩ := h
    exact ⟨b, m1, w, hc, ih (List.nodup_cons.mp (by simpa using hnd)).2 m1 m2 hr⟩
  | swap x y l =>
    intro hnd m m2 h
    have hxy : y.index ≠ x.index := by
      simp only [List.map_cons, List.nodup_cons, List.mem_cons, not_or] at hnd
      exact hnd.1.1
    rw [ThreadKernel.run_cons_ok] at h ⊢
    obtain ⟨b1, m1, w1, hc1, hr⟩ := h
    rw [ThreadKernel.run_cons_ok] at hr
    obtain ⟨b2, m3, w2, hc2, hr2⟩ := hr
    obtain ⟨m4, hc3, hc4⟩ := ThreadKernel.call_swap _ _ m m1 m3 y x hxy b1 b2 w1 w2 hc1 hc2
    refine ⟨b2, m4, w2, hc3, ?_⟩
    rw [ThreadKernel.run_cons_ok]
    exact ⟨b1, m3, w1, hc4, hr2⟩
  | trans h12 _ ih1 ih2 =>
    intro hnd m m2 h
    exact ih2 ((h12.map _).nodup_iff.mp hnd) m m2 (ih1 hnd m m2 h)

/-- C17, witness: the item of index 2 with statistics `[5, 5]`: only slot 1 of the
caller's `perm_distribution_pos` and of the kernel's `perm_distribution_neg` change. -/
theorem ThreadKernel.call_frame_witness :
    ThreadKernel.frame_permuted (ThreadKernel.new ⟨[1, 2, 3], [4, 5, 6], [7, 8], [9, 10], [11, 12]⟩)
      (ThreadKernel.exec (fun _ => .ok ([5, 5], 5, 5))
        (TFCEType.call nat_pow (.connectivity ⟨[[(1, ⟨1⟩)], [(0, ⟨1⟩)]], 1, 1, 1⟩) 4)
        (ThreadKernel.new ⟨[1, 2, 3], [4, 5, 6], [7, 8], [9, 10], [11, 12]⟩) ⟨[1, 0], 2⟩).1 2 ∧
    ThreadKernel.call (fun _ => .ok ([5, 5], 5, 5))
        (TFCEType.call nat_pow (.connectivity ⟨[[(1, ⟨1⟩)], [(0, ⟨1⟩)]], 1, 1, 1⟩) 4)
        (ThreadKernel.new ⟨[1, 2, 3], [4, 5, 6], [7, 8], [9, 10], [11, 12]⟩) ⟨[1, 0], 2⟩ =
      .ok (true,
           { caller := ⟨[1, 10, 3], [4, 5, 6], [7, 8], [9, 10], [11, 12]⟩
             kernel := { perm_distribution_neg := [4, 0, 6]
                         tfce_output_neg := [9, 10]
                         tvalue_output := [11, 12] } },
           [Target.perm_distribution_pos 1, Target.perm_distribution_neg 1]) := by
  refine ⟨(ThreadKernel.call_frame (fun _ => .ok ([5, 5], 5, 5))
    (TFCEType.call nat_pow (.connectivity ⟨[[(1, ⟨1⟩)], [(0, ⟨1⟩)]], 1, 1, 1⟩) 4)
    (ThreadKernel.new ⟨[1, 2, 3], [4, 5, 6], [7, 8], [9, 10], [11, 12]⟩) ⟨[1, 0], 2⟩).2.1
    (by decide), ?_⟩
  rw [ThreadKernel.call_permuted _ _ _ _ [5, 5] [10, 10] [0, 0] 5 5 10 0 (by decide) rfl
    (by norm_num [TFCEType.call, TFCEConnectivity.call, threshold_loop,
      TFCEConnectivity.body, for_loop, TFCEConnectivity.accumulate, TFCEConnectivity.extent,
      read, write, max_scan, nat_pow, List.replicate]) rfl
    (by norm_num [TFCEType.call, TFCEConnectivity.call, threshold_loop,
      TFCEConnectivity.body, for_loop, TFCEConnectivity.accumulate, TFCEConnectivity.extent,
      read, write, max_scan, nat_pow, List.replicate])
    (by simp [ThreadKernel.new]) (by simp [ThreadKernel.new])]
  rfl

/-- C11: order independence.  For a calculator and an integrator that are functions of
their arguments, and two sequences of items that are rearrangements of one another and
whose indices are pairwise different, applying `ThreadKernel::operator()` to the items
one after another from the same memory returns for the one sequence exactly when it
returns for the other, and then with the same memory: the same `tvalue_output`,
`tfce_output_pos`, `tfce_output_neg`, `perm_distribution_pos` and
`perm_distribution_neg`, in the caller's objects and in the kernel's members. -/
theorem ThreadKernel.run_order_independent (stats_calculator : StatsType)
    (tfce_integrator : value_type → List value_type → List value_type →
      Except Fault (List value_type × value_type))
    (items1 items2 : List PermutationItem) (m : Memory)
    (hperm : items1.Perm items2)
    (hdistinct : (items1.map fun it => it.index).Nodup) :
    ∀ m2 : Memory,
      (∃ log, ThreadKernel.run stats_calculator tfce_integrator m items1 = .ok (m2, log)) ↔
      (∃ log, ThreadKernel.run stats_calculator tfce_integrator m items2 = .ok (m2, log)) := by
  intro m2
  constructor
  · exact ThreadKernel.run_perm stats_calculator tfce_integrator items1 items2 hperm
      hdistinct m m2
  · exact ThreadKernel.run_perm stats_calculator tfce_integrator items2 items1 hperm.symm
      ((hperm.map _).nodup_iff.mp hdistinct) m m2

/-- C11, witness: three items whose statistics depend on the labelling, run in the
order 0, 1, 2 and in the order 2, 0, 1 from the same memory: both runs return the same
memory. -/
theorem ThreadKernel.run_order_independent_witness :
    (∃ log,
      ThreadKernel.run (fun l => .ok ([(l.sum : value_type) + 3, (l.sum : value_type) + 3],
            (l.sum : value_type) + 3, (l.sum : value_type) + 3))
          (TFCEType.call nat_pow (.connectivity ⟨[[(1, ⟨1⟩)], [(0, ⟨1⟩)]], 1, 1, 1⟩) 4)
          (ThreadKernel.new ⟨[0, 0], [0, 0], [0, 0], [0, 0], [0, 0]⟩)
          [⟨[0, 1], 0⟩, ⟨[1, 1], 1⟩, ⟨[1, 0], 2⟩] =
        .ok ({ caller := ⟨[10, 6], [0, 0], [6, 6], [0, 0], [0, 0]⟩
               kernel := { perm_distribution_neg := [0, 0]
                           tfce_output_neg := [0, 0]
                           tvalue_output := [4, 4] } }, log)) ∧
    (∃ log,
      ThreadKernel.run (fun l => .ok ([(l.sum : value_type) + 3, (l.sum : value_type) + 3],
            (l.sum : value_type) + 3, (l.sum : value_type) + 3))
          (TFCEType.call nat_pow (.connectivity ⟨[[(1, ⟨1⟩)], [(0, ⟨1⟩)]], 1, 1, 1⟩) 4)
          (ThreadKernel.new ⟨[0, 0], [0, 0], [0, 0], [0, 0], [0, 0]⟩)
          [⟨[1, 0], 2⟩, ⟨[0, 1], 0⟩, ⟨[1, 1], 1⟩] =
        .ok ({ caller := ⟨[10, 6], [0, 0], [6, 6], [0, 0], [0, 0]⟩
               kernel := { perm_distribution_neg := [0, 0]
                           tfce_output_neg := [0, 0]
                           tvalue_output := [4, 4] } }, log)) := by
  have h1 : ∃ log,
      ThreadKernel.run (fun l => .ok ([(l.sum : value_type) + 3, (l.sum : value_type) + 3],
            (l.sum : value_type) + 3, (l.sum : value_type) + 3))
          (TFCEType.call nat_pow (.connectivity ⟨[[(1, ⟨1⟩)], [(0, ⟨1⟩)]], 1, 1, 1⟩) 4)
          (ThreadKernel.new ⟨[0, 0], [0, 0], [0, 0], [0, 0], [0, 0]⟩)
          [⟨[0, 1], 0⟩, ⟨[1, 1], 1⟩, ⟨[1, 0], 2⟩] =
        .ok ({ caller := ⟨[10, 6], [0, 0], [6, 6], [0, 0], [0, 0]⟩
               kernel := { perm_distribution_neg := [0, 0]
                           tfce_output_neg := [0, 0]
                           tvalue_output := [4, 4] } }, log) := by
    refine ⟨[(0, Target.tvalue_output), (0, Target.tfce_output_pos), (0, Target.tfce_output_neg),
      (1, Target.perm_distribution_pos 0), (1, Target.perm_distribution_neg 0),
      (2, Target.perm_distribution_pos 1), (2, Target.perm_distribution_neg 1)], ?_⟩
    norm_num [ThreadKernel.run, ThreadKernel.call, ThreadKernel.new,
      ThreadKernel.negate_and_reset, ThreadKernel.negate_and_reset_step, TFCEType.call,
      TFCEConnectivity.call, threshold_loop, TFCEConnectivity.body, for_loop,
      TFCEConnectivity.accumulate, TFCEConnectivity.extent, read, write, max_scan, nat_pow,
      List.replicate]
  exact ⟨h1, (ThreadKernel.run_order_independent _ _ _ _ _
    (by decide) (by decide) _).mp h1⟩

/-! ### Construction and a non-positive step -/

/-- With a step `dh ≤ 0` the threshold never reaches `max_stat`: the sweep does not
return, whatever the fuel and the body. -/
theorem threshold_loop_never_returns
    (body : value_type → List value_type → Except Fault (List value_type))
    (dh max_stat : value_type) (hdh : dh ≤ 0) :
    ∀ (fuel : Nat) (thr : value_type) (acc out : List value_type), thr < max_stat →
      threshold_loop body dh max_stat fuel thr acc ≠ .ok out := by
  intro fuel
  induction fuel with
  | zero =>
    intro thr acc out h
    simp [threshold_loop, h]
  | succ fuel ih =>
    intro thr acc out h
    simp only [threshold_loop, if_pos h]
    cases body thr acc with
    | error e => simp
    | ok a => exact ih (thr + dh) a out (by linarith)

/-- C13, as the code has it: construction validates nothing.  The constructor of
`TFCESpatial` and that of `TFCEConnectivity` succeed for every `dh`, the non-positive
ones included, and store it unchanged; and a call on an integrator with `dh ≤ 0` and
`dh < max_stat` enters the sweep with that step and never returns, whatever the fuel. -/
theorem new_accepts_every_step (pow : value_type → value_type → value_type) :
    (∀ (connector : Connector) (dh E H : value_type),
      TFCESpatial.new connector dh E H =
        .ok { connector := connector, dh := dh, E := E, H := H }) ∧
    (∀ (connectivity_map : List (List (Int × connectivity))) (dh E H : value_type),
      TFCEConnectivity.new connectivity_map dh E H =
        .ok { connectivity_map := connectivity_map, dh := dh, E := E, H := H }) ∧
    (∀ (I : TFCEType) (max_stat : value_type), I.dh ≤ 0 → I.dh < max_stat →
      ∀ (fuel : Nat) (stats acc : List value_type) (out : List value_type × value_type),
        I.call pow fuel max_stat stats acc ≠ .ok out) := by
  refine ⟨fun _ _ _ _ => rfl, fun _ _ _ _ => rfl, ?_⟩
  intro I max_stat hdh hlt fuel stats acc out
  cases I with
  | spatial T =>
    simp only [TFCEType.dh] at hdh hlt
    simp only [TFCEType.call, TFCESpatial.call]
    cases hl : threshold_loop (T.body pow stats) T.dh max_stat fuel T.dh acc with
    | error e => simp
    | ok a => exact absurd hl (threshold_loop_never_returns _ _ _ hdh fuel T.dh acc a hlt)
  | connectivity T =>
    simp only [TFCEType.dh] at hdh hlt
    simp only [TFCEType.call, TFCEConnectivity.call]
    cases hl : threshold_loop (T.body pow stats) T.dh max_stat fuel T.dh acc with
    | error e => simp
    | ok a => exact absurd hl (threshold_loop_never_returns _ _ _ hdh fuel T.dh acc a hlt)

/-- C13, witness: the connectivity integrator with `dh = 0` and `max_stat = 5` does not
return with fuel 7. -/
theorem new_accepts_every_step_witness :
    TFCEType.call nat_pow (.connectivity ⟨[[(1, ⟨1⟩)], [(0, ⟨1⟩)]], 0, 1, 1⟩) 7 5 [5, 5]
      [0, 0] ≠ .ok ([0, 0], 0) :=
  (new_accepts_every_step nat_pow).2.2
    (.connectivity ⟨[[(1, ⟨1⟩)], [(0, ⟨1⟩)]], 0, 1, 1⟩) 5
    (by norm_num [TFCEType.dh]) (by norm_num [TFCEType.dh]) 7 [5, 5] [0, 0] ([0, 0], 0)

/-- C13, counterexample: constructing the spatial integrator with `dh = 0` and the
connectivity integrator with `dh = -1` is not rejected; both constructions return the
integrator with that step. -/
theorem new_nonpositive_step_accepted :
    TFCESpatial.new one_cluster 0 1 2 =
      .ok { connector := one_cluster, dh := 0, E := 1, H := 2 } ∧
    TFCEConnectivity.new [[(1, ⟨1⟩)], [(0, ⟨1⟩)]] (-1) 1 1 =
      .ok { connectivity_map := [[(1, ⟨1⟩)], [(0, ⟨1⟩)]], dh := -1, E := 1, H := 1 } ∧
    ¬ (∃ e, TFCESpatial.new one_cluster 0 1 2 = .error e) ∧
    ¬ (∃ e, TFCEConnectivity.new [[(1, ⟨1⟩)], [(0, ⟨1⟩)]] (-1) 1 1 = .error e) := by
  refine ⟨rfl, rfl, ?_, ?_⟩
  · rintro ⟨e, h⟩
    cases h
  · rintro ⟨e, h⟩
    cases h

theorem neighbour_weight_congr (stats1 stats2 : List value_type) (t : value_type)
    (m : List (Int × connectivity))
    (h : ∀ p, p ∈ m → stats1[p.1.toNat]? = stats2[p.1.toNat]?) :
    neighbour_weight stats1 t m = neighbour_weight stats2 t m := by
  unfold neighbour_weight
  congr 2
  apply List.filter_congr
  intro p hp
  unfold exceeds
  rw [h p hp]

theorem connectivity_term_congr (pow : value_type → value_type → value_type)
    (T : TFCEConnectivity) (stats1 stats2 : List value_type) (i : Nat) (t : value_type)
    (h : ∀ p, p ∈ T.connectivity_map.getD i [] → stats1[p.1.toNat]? = stats2[p.1.toNat]?) :
    connectivity_term pow T stats1 i t = connectivity_term pow T stats2 i t := by
  unfold connectivity_term
  rw [neighbour_weight_congr stats1 stats2 t _ h]

theorem getD_mem_of_mem {α : Type} (l : List (List α)) (i : Nat) (x : α)
    (h : x ∈ l.getD i []) : l.getD i [] ∈ l := by
  by_cases hi : i < l.length
  · rw [List.getD_eq_getElem l [] hi]
    exact List.getElem_mem hi
  · rw [List.getD_eq_default l [] (by omega)] at h
    cases h

/-- C16: the connectivity integrator does not read the value of the element itself.
For a positive step and usable inputs a call returns, and any statistics vector of the
same length that agrees with `stats` on every mapped neighbour of element `i` gives
element `i` the same enhancement (same `max_stat`, parameters and initial accumulator);
in particular, when `i` is not a key of `map[i]`, changing `stats[i]` alone to any
value `v` does not change the enhancement of element `i`. -/
theorem TFCEConnectivity.connectivity_call_own_value
    (pow : value_type → value_type → value_type) (T : TFCEConnectivity)
    (max_stat : value_type) (stats acc : List value_type) (i : Nat)
    (hdh : 0 < T.dh) (hkeys : keys_valid T.connectivity_map stats.length)
    (hmap : T.connectivity_map.length ≤ acc.length) (hstats : stats.length ≤ acc.length) :
    ∃ N : Nat, (∀ k : Nat, ((k : value_type) + 1) * T.dh < max_stat ↔ k < N) ∧
      ∀ fuel, N ≤ fuel → ∃ enh m,
        T.call pow fuel max_stat stats acc = .ok (enh, m) ∧
        (∀ stats2 : List value_type, stats2.length = stats.length →
          (∀ p, p ∈ T.connectivity_map.getD i [] → stats2[p.1.toNat]? = stats[p.1.toNat]?) →
          ∃ enh2 m2, T.call pow fuel max_stat stats2 acc = .ok (enh2, m2) ∧
            enh2[i]? = enh[i]?) ∧
        ((∀ p, p ∈ T.connectivity_map.getD i [] → p.1 ≠ (i : Int)) →
          ∀ v : value_type, ∃ enh2 m2,
            T.call pow fuel max_stat (stats.set i v) acc = .ok (enh2, m2) ∧
            enh2[i]? = enh[i]?) := by
  obtain ⟨N, hN⟩ := sweep_count_exists T.dh max_stat hdh
  refine ⟨N, hN, fun fuel hfuel => ?_⟩
  have hagree : ∀ stats2 : List value_type, stats2.length = stats.length →
      (∀ p, p ∈ T.connectivity_map.getD i [] → stats2[p.1.toNat]? = stats[p.1.toNat]?) →
      ∃ enh2 m2, T.call pow fuel max_stat stats2 acc = .ok (enh2, m2) ∧
        enh2[i]? = (acc.mapIdx (fun i x => x + ∑ k in Finset.range N,
          if i < T.connectivity_map.length then
            connectivity_term pow T stats i (((k : value_type) + 1) * T.dh) else 0))[i]? := by
    intro stats2 hlen hag
    refine ⟨_, _, T.connectivity_call_eq pow max_stat stats2 acc N hN (by rw [hlen]; exact hkeys)
      hmap (by rw [hlen]; exact hstats) fuel hfuel, ?_⟩
    simp only [List.getElem?_mapIdx]
    congr 2
    funext x
    congr 1
    apply Finset.sum_congr rfl
    intro k _
    split_ifs
    · exact connectivity_term_congr pow T stats2 stats i _ hag
    · rfl
  refine ⟨_, _, T.connectivity_call_eq pow max_stat stats acc N hN hkeys hmap hstats fuel hfuel,
    hagree, fun hself v => ?_⟩
  apply hagree (stats.set i v) (List.length_set _ _ _)
  intro p hp
  have hmem := hkeys _ (getD_mem_of_mem _ i p hp) p hp
  have hne : i ≠ p.1.toNat := by
    intro h
    apply hself p hp
    rw [h, Int.toNat_of_nonneg hmem.1]
  exact List.getElem?_set_ne hne

/-- C16, witness: two elements joined by weight 1, statistics `[5, 5]`: the enhancement
of element 0 is 10, and it is still 10 when the statistic of element 0 itself is changed
to 100. -/
theorem TFCEConnectivity.connectivity_call_own_value_witness :
    (∃ N : Nat, (∀ k : Nat, ((k : value_type) + 1) * 1 < 5 ↔ k < N) ∧
      ∀ fuel, N ≤ fuel → ∃ enh m,
        TFCEConnectivity.call nat_pow ⟨[[(1, ⟨1⟩)], [(0, ⟨1⟩)]], 1, 1, 1⟩ fuel 5 [5, 5]
          [0, 0] = .ok (enh, m) ∧
        (∀ stats2 : List value_type, stats2.length = ([5, 5] : List value_type).length →
          (∀ p, p ∈ ([[(1, ⟨1⟩)], [(0, ⟨1⟩)]] : List (List (Int × connectivity))).getD 0 [] →
            stats2[p.1.toNat]? = ([5, 5] : List value_type)[p.1.toNat]?) →
          ∃ enh2 m2,
            TFCEConnectivity.call nat_pow ⟨[[(1, ⟨1⟩)], [(0, ⟨1⟩)]], 1, 1, 1⟩ fuel 5 stats2
              [0, 0] = .ok (enh2, m2) ∧
            enh2[0]? = enh[0]?) ∧
        ((∀ p, p ∈ ([[(1, ⟨1⟩)], [(0, ⟨1⟩)]] : List (List (Int × connectivity))).getD 0 [] →
            p.1 ≠ ((0 : Nat) : Int)) →
          ∀ v : value_type, ∃ enh2 m2,
            TFCEConnectivity.call nat_pow ⟨[[(1, ⟨1⟩)], [(0, ⟨1⟩)]], 1, 1, 1⟩ fuel 5
              (([5, 5] : List value_type).set 0 v) [0, 0] = .ok (enh2, m2) ∧
            enh2[0]? = enh[0]?)) ∧
    TFCEConnectivity.call nat_pow ⟨[[(1, ⟨1⟩)], [(0, ⟨1⟩)]], 1, 1, 1⟩ 4 5 [5, 5] [0, 0] =
      .ok ([10, 10], 10) ∧
    TFCEConnectivity.call nat_pow ⟨[[(1, ⟨1⟩)], [(0, ⟨1⟩)]], 1, 1, 1⟩ 4 5 [100, 5] [0, 0] =
      .ok ([10, 10], 10) := by
  refine ⟨TFCEConnectivity.connectivity_call_own_value nat_pow
    ⟨[[(1, ⟨1⟩)], [(0, ⟨1⟩)]], 1, 1, 1⟩ 5 [5, 5] [0, 0] 0 (by norm_num) (by decide)
    (by simp) (by simp), ?_, ?_⟩
  · norm_num [TFCEConnectivity.call, threshold_loop, TFCEConnectivity.body, for_loop,
      TFCEConnectivity.accumulate, TFCEConnectivity.extent, read, write, max_scan, nat_pow]
  · norm_num [TFCEConnectivity.call, threshold_loop, TFCEConnectivity.body, for_loop,
      TFCEConnectivity.accumulate, TFCEConnectivity.extent, read, write, max_scan, nat_pow]

/-- A sweep whose body always returns, keeping the length of the accumulator, returns or
runs out of fuel. -/
theorem threshold_loop_total
    (body : value_type → List value_type → Except Fault (List value_type))
    (dh max_stat : value_type) (n : Nat)
    (hbody : ∀ t a, a.length = n → ∃ a1, body t a = .ok a1 ∧ a1.length = n) :
    ∀ (fuel : Nat) (thr : value_type) (acc : List value_type), acc.length = n →
      (∃ a1, threshold_loop body dh max_stat fuel thr acc = .ok a1 ∧ a1.length = n) ∨
      threshold_loop body dh max_stat fuel thr acc = .error .out_of_fuel := by
  intro fuel
  induction fuel with
  | zero =>
    intro thr acc hacc
    simp only [threshold_loop]
    split_ifs
    · exact Or.inr rfl
    · exact Or.inl ⟨acc, rfl, hacc⟩
  | succ fuel ih =>
    intro thr acc hacc
    simp only [threshold_loop]
    split_ifs
    · obtain ⟨a1, hb, hl⟩ := hbody thr acc hacc
      rw [hb]
      exact ih (thr + dh) a1 hl
    · exact Or.inl ⟨acc, rfl, hacc⟩

/-- C20: index safety of `TFCEConnectivity::operator()`.  When every key of every
per-element map lies in `[0, |stats|)`, the accumulator has at least as many entries as
the connectivity map and `|stats| ≤ |accumulator|`, then for every threshold and every
accumulator of that length the body of the sweep returns (each `stats[key]` and
`tfce_stats[lobe]` is in bounds), the closing scan returns (each `tfce_stats[i]` is in
bounds), and the call never ends in `out_of_range`: it returns or, the fuel spent, ends
in `out_of_fuel`. -/
theorem TFCEConnectivity.connectivity_call_in_bounds
    (pow : value_type → value_type → value_type) (T : TFCEConnectivity) (fuel : Nat)
    (max_stat : value_type) (stats acc : List value_type)
    (hkeys : keys_valid T.connectivity_map stats.length)
    (hmap : T.connectivity_map.length ≤ acc.length) (hstats : stats.length ≤ acc.length) :
    (∀ (t : value_type) (a : List value_type), a.length = acc.length →
      ∃ a1, T.body pow stats t a = .ok a1 ∧ a1.length = acc.length) ∧
    (∀ a : List value_type, a.length = acc.length → ∃ m, max_scan stats.length a = .ok m) ∧
    T.call pow fuel max_stat stats acc ≠ .error .out_of_range ∧
    ((∃ out, T.call pow fuel max_stat stats acc = .ok out) ∨
      T.call pow fuel max_stat stats acc = .error .out_of_fuel) := by
  have hbody : ∀ (t : value_type) (a : List value_type), a.length = acc.length →
      ∃ a1, T.body pow stats t a = .ok a1 ∧ a1.length = acc.length := by
    intro t a ha
    refine ⟨_, T.connectivity_body_eq pow stats t hkeys a (by omega), ?_⟩
    rw [List.length_mapIdx, ha]
  have hscan : ∀ a : List value_type, a.length = acc.length →
      ∃ m, max_scan stats.length a = .ok m :=
    fun a ha => ⟨_, max_scan_eq a stats.length (by omega)⟩
  have hcall : (∃ out, T.call pow fuel max_stat stats acc = .ok out) ∨
      T.call pow fuel max_stat stats acc = .error .out_of_fuel := by
    unfold TFCEConnectivity.call
    rcases threshold_loop_total (T.body pow stats) T.dh max_stat acc.length hbody fuel T.dh acc
      rfl with ⟨a1, hl, hlen⟩ | hl
    · obtain ⟨m, hm⟩ := hscan a1 hlen
      rw [hl]
      simp only [hm]
      exact Or.inl ⟨_, rfl⟩
    · rw [hl]
      exact Or.inr rfl
  refine ⟨hbody, hscan, ?_, hcall⟩
  rcases hcall with ⟨out, h⟩ | h <;> rw [h] <;> simp

/-- C20, witness: two joined elements, statistics `[5, 5]`, `max_stat = 5`: with fuel 4
the call returns, with fuel 1 it ends in `out_of_fuel`, never in `out_of_range`. -/
theorem TFCEConnectivity.connectivity_call_in_bounds_witness :
    ((∀ (t : value_type) (a : List value_type), a.length = ([0, 0] : List value_type).length →
        ∃ a1, TFCEConnectivity.body nat_pow ⟨[[(1, ⟨1⟩)], [(0, ⟨1⟩)]], 1, 1, 1⟩ [5, 5] t a =
          .ok a1 ∧ a1.length = ([0, 0] : List value_type).length) ∧
      (∀ a : List value_type, a.length = ([0, 0] : List value_type).length →
        ∃ m, max_scan ([5, 5] : List value_type).length a = .ok m) ∧
      TFCEConnectivity.call nat_pow ⟨[[(1, ⟨1⟩)], [(0, ⟨1⟩)]], 1, 1, 1⟩ 1 5 [5, 5] [0, 0] ≠
        .error .out_of_range ∧
      ((∃ out, TFCEConnectivity.call nat_pow ⟨[[(1, ⟨1⟩)], [(0, ⟨1⟩)]], 1, 1, 1⟩ 1 5 [5, 5]
          [0, 0] = .ok out) ∨
        TFCEConnectivity.call nat_pow ⟨[[(1, ⟨1⟩)], [(0, ⟨1⟩)]], 1, 1, 1⟩ 1 5 [5, 5] [0, 0] =
          .error .out_of_fuel)) ∧
    TFCEConnectivity.call nat_pow ⟨[[(1, ⟨1⟩)], [(0, ⟨1⟩)]], 1, 1, 1⟩ 1 5 [5, 5] [0, 0] =
      .error .out_of_fuel ∧
    TFCEConnectivity.call nat_pow ⟨[[(1, ⟨1⟩)], [(0, ⟨1⟩)]], 1, 1, 1⟩ 4 5 [5, 5] [0, 0] =
      .ok ([10, 10], 10) := by
  refine ⟨TFCEConnectivity.connectivity_call_in_bounds nat_pow
    ⟨[[(1, ⟨1⟩)], [(0, ⟨1⟩)]], 1, 1, 1⟩ 1 5 [5, 5] [0, 0] (by decide) (by simp) (by simp),
    ?_, ?_⟩
  · norm_num [TFCEConnectivity.call, threshold_loop, TFCEConnectivity.body, for_loop,
      TFCEConnectivity.accumulate, TFCEConnectivity.extent, read, write, max_scan, nat_pow]
  · norm_num [TFCEConnectivity.call, threshold_loop, TFCEConnectivity.body, for_loop,
      TFCEConnectivity.accumulate, TFCEConnectivity.extent, read, write, max_scan, nat_pow]

end MR.Stats.TFCE
